import Mathlib

/-!
# pdp-client: chunk encoder, query cache, activation, policy updater, upload cycle,
backoff, logger configuration and decision endpoint

A shallow embedding of the parts of `pkg/pdp`, `internal/util`, `internal/models`
and `internal/handlers` that the specification speaks about, with the properties proved (or refuted) on the embedding.

Conventions
* Go `[]byte` is `List UInt8`; a Go `string` that is only compared or searched
  is a `String` / `List Char`.
* Go `error` is `Option String` (`none` is `nil`).
* A method with a pointer receiver takes the receiver's state and returns the
  new state next to its Go results.
* Lengths of byte slices are far below `2^63`, so `int` / `int64` sums of
  lengths are modelled without wrap-around (`Nat` for lengths, `Int` for the
  configured limits, which may be zero or negative).
-/

namespace Pdp

/-! ## log_encoder.go -/

/-- Go `[]byte`. -/
abbrev Bytes := List UInt8

/-- A gzip member as produced by closing a `gzip.Writer`, represented by the
bytes it decompresses to. -/
structure Chunk where
  gunzip : Bytes
deriving DecidableEq, Repr

/-- The bytes of `[`. -/
def lbracket : Bytes := [91]
/-- The bytes of `,`. -/
def comma : Bytes := [44]
/-- The bytes of `]`. -/
def rbracket : Bytes := [93]

/-- The struct `chunkEncoder`. `buf` is the `*bytes.Buffer` the gzip writer `w`
compresses into (`none` is the nil pointer); `w` and `buf` are set together by
`initialize`, so the pair is represented by the uncompressed bytes written
through `w` so far. -/
structure chunkEncoder where
  flushLimit : Int
  bytesWritten : Nat
  buf : Option Bytes
deriving DecidableEq, Repr

/-- The call `enc.w.Write(p)`: appends `p` to the stream and returns `len(p)`
(a `gzip.Writer` over a `bytes.Buffer` does not fail). -/
def chunkEncoder.wWrite (enc : chunkEncoder) (p : Bytes) : chunkEncoder × Nat :=
  ({ enc with buf := enc.buf.map (· ++ p) }, p.length)

/-- The method `initialize`. -/
def chunkEncoder.initialize (enc : chunkEncoder) : chunkEncoder :=
  { enc with buf := some [], bytesWritten := 0 }

/-- The method `update`: hands out the finished buffer and starts a new one. -/
def chunkEncoder.update (enc : chunkEncoder) : chunkEncoder × List Chunk :=
  let buf := enc.buf
  let enc := enc.initialize
  match buf with
  | some b => (enc, [⟨b⟩])
  | none => (enc, [])

/-- The function `newChunkEncoder`. -/
def newChunkEncoder (limit : Int) : chunkEncoder :=
  let enc : chunkEncoder := { flushLimit := limit, bytesWritten := 0, buf := none }
  (enc.update).1

/-- The method `writeClose`: writes `]` and closes the gzip stream. -/
def chunkEncoder.writeClose (enc : chunkEncoder) : chunkEncoder × Option String :=
  ((enc.wWrite rbracket).1, none)

/-- The method `Write`. The event enters only through the outcome of
`json.NewEncoder(&buf).Encode(event)`, here `encoded`: the bytes left in `buf`
or the encoder's error. Returns the new state, `result` and `err`. -/
def chunkEncoder.Write (enc : chunkEncoder) (encoded : Except String Bytes) :
    chunkEncoder × List Chunk × Option String :=
  match encoded with
  | .error e => (enc, [], some e)
  | .ok bs =>
    if bs.length = 0 then (enc, [], none)
    else
      let crossing : chunkEncoder × List Chunk × Option String :=
        if ((bs.length + enc.bytesWritten + 1 : Nat) : Int) > enc.flushLimit then
          match enc.writeClose with
          | (enc1, some e) => (enc1, [], some e)
          | (enc1, none) =>
            let r := enc1.update
            (r.1, r.2, none)
        else (enc, [], none)
      match crossing with
      | (enc1, _, some e) => (enc1, [], some e)
      | (enc1, result, none) =>
        let sep := if enc1.bytesWritten = 0 then lbracket else comma
        let (enc2, n) := enc1.wWrite sep
        let enc3 := { enc2 with bytesWritten := enc2.bytesWritten + n }
        let (enc4, n) := enc3.wWrite bs
        ({ enc4 with bytesWritten := enc4.bytesWritten + n }, result, none)

/-- The method `Flush`. -/
def chunkEncoder.Flush (enc : chunkEncoder) : chunkEncoder × List Chunk × Option String :=
  if enc.bytesWritten = 0 then (enc, [], none)
  else
    match enc.writeClose with
    | (enc1, some e) => (enc1, [], some e)
    | (enc1, none) =>
      let r := enc1.update
      (r.1, r.2, none)

/-- One call made on an encoder. -/
inductive EncOp where
  | write (encoded : Except String Bytes)
  | flush

/-- One call on the encoder: the new state and what the call returned. -/
def chunkEncoder.step (enc : chunkEncoder) : EncOp → chunkEncoder × List Chunk × Option String
  | .write e => enc.Write e
  | .flush => enc.Flush

/-- A sequence of calls: the final state and what each call returned, in order. -/
def chunkEncoder.run (enc : chunkEncoder) : List EncOp → chunkEncoder × List (List Chunk × Option String)
  | [] => (enc, [])
  | op :: ops =>
    let r := enc.step op
    let rest := chunkEncoder.run r.1 ops
    (rest.1, (r.2.1, r.2.2) :: rest.2)

/-- Writes the serialized events `bss` one after the other: the final state and
what each `Write` returned. -/
def chunkEncoder.writeAll (enc : chunkEncoder) (bss : List Bytes) :
    chunkEncoder × List (List Chunk × Option String) :=
  enc.run (bss.map fun bs => EncOp.write (.ok bs))

/-- The text `[` e1 `,` e2 `,` ... `,` en `]` of a JSON array of the serialized events. -/
def jsonArray (bss : List Bytes) : Bytes :=
  lbracket ++ (List.intersperse comma bss).flatten ++ rbracket

/-- A chunk is a well-formed array of at least one event. -/
def Chunk.WellFormed (c : Chunk) : Prop :=
  ∃ bss : List Bytes, bss ≠ [] ∧ (∀ bs ∈ bss, bs ≠ []) ∧ c.gunzip = jsonArray bss

/-! ## query_cache.go -/

/-- The struct `queryCache` (its mutex left out: calls are taken one at a time).
`Q` is the pointer type `*rego.PreparedEvalQuery`; the Go map is the partial
function `cache`, `none` for a missing key. -/
structure queryCache (Q : Type) where
  cache : String → Option Q

/-- The function `newQueryCache`. -/
def newQueryCache {Q : Type} : queryCache Q := ⟨fun _ => none⟩

/-- What `Get` returns: the pair `(result, err)` of the Go function, the cache
afterwards and the keys `orElse` was called with, in order. -/
structure GetResult (Q : Type) where
  qc : queryCache Q
  result : Q
  err : Option String
  calls : List String

/-- The method `Get`. `orElse` returns the Go pair `(result, err)`; `nilQ` is the
nil pointer. -/
def queryCache.Get {Q : Type} (nilQ : Q) (qc : queryCache Q) (key : String)
    (orElse : String → Q × Option String) : GetResult Q :=
  match qc.cache key with
  | some result => ⟨qc, result, none, []⟩
  | none =>
    let (result, err) := orElse key
    if err = none then
      ⟨⟨fun k => if k = key then some result else qc.cache k⟩, result, none, [key]⟩
    else
      ⟨qc, nilQ, some "failed to get prepared query from cache", [key]⟩

/-- The method `Set`. -/
def queryCache.Set {Q : Type} (qc : queryCache Q) (key : String) (pq : Q) : queryCache Q :=
  ⟨fun k => if k = key then some pq else qc.cache k⟩

/-- The method `Clear`. -/
def queryCache.Clear {Q : Type} (_qc : queryCache Q) : queryCache Q := ⟨fun _ => none⟩

/-! ## logger.go: configuration -/

/-- Go `int64` wrap-around of an exact integer. -/
def wrapInt64 (x : Int) : Int := (x + 2 ^ 63) % 2 ^ 64 - 2 ^ 63

/-- The constant `defaultMinDelaySeconds`. -/
def defaultMinDelaySeconds : Int := 1
/-- The constant `defaultMaxDelaySeconds`. -/
def defaultMaxDelaySeconds : Int := 10
/-- The constant `defaultBufferChunkSizeBytes`. -/
def defaultBufferChunkSizeBytes : Int := 32768
/-- The constant `defaultBufferSizeLimitBytes`. -/
def defaultBufferSizeLimitBytes : Int := 0
/-- The constant `time.Second` in nanoseconds. -/
def timeSecond : Int := 1000000000

/-- The struct `DecisionLogConfig`; a `*int64` field is an `Option Int`. -/
structure DecisionLogConfig where
  ConsoleLog : Bool
  HTTPLog : Bool
  BufferChunkSizeBytes : Option Int
  BufferSizeLimitBytes : Option Int
  MinDelaySeconds : Option Int
  MaxDelaySeconds : Option Int
  Endpoint : String
  EndpointTimeout : Int
  BearerToken : String
deriving DecidableEq, Repr

/-- The tail of `validateAndInjectDefaults`, after `min` and `max` are chosen. -/
def DecisionLogConfig.injectDefaults (c : DecisionLogConfig) (min max : Int) : DecisionLogConfig :=
  let minSeconds := wrapInt64 (min * timeSecond)
  let maxSeconds := wrapInt64 (max * timeSecond)
  let uploadLimit := match c.BufferChunkSizeBytes with
    | some v => v
    | none => defaultBufferChunkSizeBytes
  let bufferLimit := match c.BufferSizeLimitBytes with
    | some v => v
    | none => defaultBufferSizeLimitBytes
  { c with MinDelaySeconds := some minSeconds, MaxDelaySeconds := some maxSeconds,
           BufferChunkSizeBytes := some uploadLimit, BufferSizeLimitBytes := some bufferLimit }

/-- The method `validateAndInjectDefaults`: the configuration afterwards and the error. -/
def DecisionLogConfig.validateAndInjectDefaults (c : DecisionLogConfig) :
    DecisionLogConfig × Option String :=
  match c.MaxDelaySeconds, c.MinDelaySeconds with
  | some cmax, some cmin =>
    if cmax < cmin then
      (c, some "max reporting delay must be >= min reporting delay in decision_logs")
    else (c.injectDefaults cmin cmax, none)
  | none, some _ =>
    (c, some "reporting configuration missing 'max_delay_seconds' in decision_logs")
  | some _, none =>
    (c, some "reporting configuration missing 'min_delay_seconds' in decision_logs")
  | none, none => (c.injectDefaults defaultMinDelaySeconds defaultMaxDelaySeconds, none)

/-! ## The log buffer -/

/-- Modelled from the spec: the type `logBuffer` with `newLogBuffer`, `Push`,
`Pop` and `Len` (its source file is not among the sources). Section 4.4: a
bounded FIFO of chunks with a total-byte budget, 0 meaning unlimited. -/
structure logBuffer where
  limit : Int
  l : List Chunk
deriving DecidableEq, Repr

/-- Modelled from the spec: the constructor `newLogBuffer` of the missing
`logBuffer`, an empty FIFO with the given budget. -/
def newLogBuffer (limit : Int) : logBuffer := ⟨limit, []⟩

/-- Total size of the queued chunks, `size` giving the byte length of a chunk. -/
def totalSize (size : Chunk → Nat) (l : List Chunk) : Nat := (l.map size).sum

/-- Modelled from the spec: the eviction loop of the missing `logBuffer.Push`:
while the total size exceeds the budget, evict from the front (oldest first)
and count evictions. -/
def evict (size : Chunk → Nat) (limit : Int) : List Chunk → List Chunk × Nat
  | [] => ([], 0)
  | c :: cs =>
    if (totalSize size (c :: cs) : Int) > limit then
      let r := evict size limit cs
      (r.1, r.2 + 1)
    else (c :: cs, 0)

/-- Modelled from the spec: the missing `logBuffer.Push`: enqueue, then evict
while over budget (0 = unlimited), and return the number of evictions. -/
def logBuffer.Push (size : Chunk → Nat) (lb : logBuffer) (bs : Chunk) : logBuffer × Nat :=
  let l := lb.l ++ [bs]
  if lb.limit = 0 then ({ lb with l := l }, 0)
  else
    let r := evict size lb.limit l
    ({ lb with l := r.1 }, r.2)

/-- Modelled from the spec: the missing `logBuffer.Pop`: dequeue from the front,
or signal empty (`none`, the nil slice) if none remain. -/
def logBuffer.Pop (lb : logBuffer) : Option Chunk × logBuffer :=
  match lb.l with
  | [] => (none, lb)
  | c :: cs => (some c, { lb with l := cs })

/-- Modelled from the spec: the missing `logBuffer.Len`, the number of queued chunks. -/
def logBuffer.Len (lb : logBuffer) : Nat := lb.l.length

/-! ## logger.go: the upload cycle -/

/-- The struct `decisionLogger` (HTTP client, mutex and stop channel left out:
the upload outcome is an input of the model and calls are taken one at a time). -/
structure decisionLogger where
  config : DecisionLogConfig
  buffer : logBuffer
  enc : chunkEncoder
deriving DecidableEq, Repr

/-- The function `newLogger`. The outer `Option` is `none` when the Go code
would dereference a nil pointer; the inner pair is the Go result. -/
def newLogger (config : DecisionLogConfig) : Option (Except String decisionLogger) :=
  match config.validateAndInjectDefaults with
  | (_, some err) => some (.error err)
  | (config, none) => do
    let bufferLimit ← config.BufferSizeLimitBytes
    let chunkLimit ← config.BufferChunkSizeBytes
    return .ok { config := config, buffer := newLogBuffer bufferLimit,
                 enc := newChunkEncoder chunkLimit }

/-- The method `bufferChunk`: pushes, the warning about dropped chunks left out. -/
def bufferChunk (size : Chunk → Nat) (buffer : logBuffer) (bs : Chunk) : logBuffer :=
  (buffer.Push size bs).1

/-- The method `encodeAndBufferEvent`. -/
def decisionLogger.encodeAndBufferEvent (size : Chunk → Nat) (l : decisionLogger)
    (encoded : Except String Bytes) : decisionLogger :=
  match l.enc.Write encoded with
  | (enc, _, some _) => { l with enc := enc }
  | (enc, result, none) =>
    { l with enc := enc, buffer := result.foldl (bufferChunk size) l.buffer }

/-- The method `Log`, console output left out. -/
def decisionLogger.Log (size : Chunk → Nat) (l : decisionLogger)
    (encoded : Except String Bytes) : decisionLogger × Option String :=
  if l.config.HTTPLog then (l.encodeAndBufferEvent size encoded, none) else (l, none)

/-- One upload attempt of a cycle: the chunk handed to `uploadChunk` and the
error it returned. -/
abbrev Attempt := Chunk × Option String

set_option linter.unusedVariables false in
/-- The pop loop of `oneShot`. `upload i bs` is what the `i`-th call of
`uploadChunk` in this cycle returns on chunk `bs`; `cur` is `l.buffer`, `err`
the variable `err`, `attempts` the calls of `uploadChunk` so far. -/
def uploadLoop (size : Chunk → Nat) (upload : Nat → Chunk → Option String)
    (oldBuffer cur : logBuffer) (err : Option String) (attempts : List Attempt) :
    logBuffer × Option String × List Attempt :=
  match h : oldBuffer.Pop with
  | (none, _) => (cur, err, attempts)
  | (some bs, oldBuffer1) =>
    let step : Option String × List Attempt :=
      if err = none then
        let e := upload attempts.length bs
        (e, attempts ++ [(bs, e)])
      else (err, attempts)
    let cur1 := if step.1 ≠ none then bufferChunk size cur bs else cur
    uploadLoop size upload oldBuffer1 cur1 step.1 step.2
termination_by oldBuffer.l.length
decreasing_by
  unfold logBuffer.Pop at h
  split at h
  · simp at h
  · next d ds hl =>
    simp only [Prod.mk.injEq, Option.some.injEq] at h
    rw [← h.2, hl]
    simp

/-- What `oneShot` returns: the logger afterwards, the Go pair `(ok, err)` and the
calls of `uploadChunk` it made, in order. -/
structure OneShotResult where
  logger : decisionLogger
  ok : Bool
  err : Option String
  attempts : List Attempt
deriving DecidableEq, Repr

/-- The old buffer of a cycle once the old encoder has been flushed into it. -/
def decisionLogger.pending (size : Chunk → Nat) (l : decisionLogger) : logBuffer :=
  (l.enc.Flush).2.1.foldl (bufferChunk size) l.buffer

/-- The method `oneShot`. The result is `none` when the Go code would
dereference a nil limit in the configuration. -/
def decisionLogger.oneShot (size : Chunk → Nat) (upload : Nat → Chunk → Option String)
    (l : decisionLogger) : Option OneShotResult := do
  let oldChunkEnc := l.enc
  let oldBuffer := l.buffer
  let bufferLimit ← l.config.BufferSizeLimitBytes
  let chunkLimit ← l.config.BufferChunkSizeBytes
  let l := { l with buffer := newLogBuffer bufferLimit, enc := newChunkEncoder chunkLimit }
  match oldChunkEnc.Flush with
  | (_, _, some err) => return ⟨l, false, some err, []⟩
  | (_, chunk, none) =>
    let oldBuffer := chunk.foldl (bufferChunk size) oldBuffer
    if oldBuffer.Len = 0 then return ⟨l, false, none, []⟩
    else
      let r := uploadLoop size upload oldBuffer l.buffer none []
      return ⟨{ l with buffer := r.1 }, r.2.1 == none, r.2.1, r.2.2⟩

/-- The method `doOneShot`: returns the error of `oneShot`. -/
def decisionLogger.doOneShot (size : Chunk → Nat) (upload : Nat → Chunk → Option String)
    (l : decisionLogger) : Option (decisionLogger × Option String) :=
  (l.oneShot size upload).map fun r => (r.logger, r.err)

/-! ## client.go -/

/-- The `storage.Store` of the policy engine as far as `Activate` uses it. `S`
is the state of the store, `T` a transaction handle; each operation returns the
store afterwards next to its Go results. -/
structure StoreOps (S T : Type) where
  new : S
  NewTransaction : S → S × T × Option String
  UpsertPolicy : S → T → String → String → S × Option String
  Commit : S → T → S × Option String

/-- The struct `PermitClient`. -/
structure PermitClient (S Q : Type) where
  logger : decisionLogger
  queryCache : queryCache Q
  store : S
  policiesLoaded : Bool

/-- The struct `PermitConfig`. -/
structure PermitConfig where
  Logger : DecisionLogConfig

/-- The function `New` (the start of the logger's background loop left out).
The outer `Option` is as in `newLogger`. -/
def New {S T Q : Type} (ops : StoreOps S T) (config : PermitConfig) :
    Option (Except String (PermitClient S Q)) :=
  (newLogger config.Logger).map fun r =>
    match r with
    | .error err => .error err
    | .ok logger =>
      .ok { logger := logger, store := ops.new, queryCache := newQueryCache,
            policiesLoaded := false }

/-- The method `Activate`: the client afterwards and the returned error. -/
def PermitClient.Activate {S T Q : Type} (ops : StoreOps S T) (p : PermitClient S Q)
    (path policyData : String) : PermitClient S Q × Option String :=
  match ops.NewTransaction p.store with
  | (s1, _, some err) => ({ p with store := s1 }, some err)
  | (s1, txn, none) =>
    match ops.UpsertPolicy s1 txn path policyData with
    | (s2, some err) => ({ p with store := s2 }, some err)
    | (s2, none) =>
      match ops.Commit s2 txn with
      | (s3, some err) => ({ p with store := s3 }, some err)
      | (s3, none) =>
        ({ p with store := s3, queryCache := p.queryCache.Clear, policiesLoaded := true }, none)

/-- The method `Ready`. -/
def PermitClient.Ready {S Q : Type} (p : PermitClient S Q) : Bool := p.policiesLoaded

/-- A sequence of `Activate` calls, each with its own path and policy text: the
client afterwards and the error each call returned, in order. -/
def PermitClient.activateAll {S T Q : Type} (ops : StoreOps S T) (p : PermitClient S Q) :
    List (String × String) → PermitClient S Q × List (Option String)
  | [] => (p, [])
  | (path, policyData) :: calls =>
    let r := p.Activate ops path policyData
    let rest := PermitClient.activateAll ops r.1 calls
    (rest.1, r.2 :: rest.2)

/-! ## git_updater.go -/

/-- The struct `PolicyBundle`. -/
structure PolicyBundle where
  Name : String
  Data : Bytes
deriving DecidableEq, Repr

/-- The struct `PolicyProjectUpdate`. -/
structure PolicyProjectUpdate where
  Available : Bool
  OldHash : String
  NewHash : String
deriving DecidableEq, Repr

/-- The struct `PolicyProject`; `SSHKey` is `none` for a nil slice and holds the
key text otherwise. -/
structure PolicyProject where
  Url : String
  Branch : String
  SSHKey : Option String
  Hash : String
  PolicyBundles : List PolicyBundle
deriving DecidableEq, Repr

/-- The struct `PolicyUpdater`; the calls of `eventHandlerFunc` are recorded in
the effects a method returns. -/
structure PolicyUpdater where
  project : PolicyProject
deriving DecidableEq, Repr

/-- The function `NewPolicyUpdater`; `make([]PolicyBundle, 1)` is one zero bundle. -/
def NewPolicyUpdater (repository repositoryKey repositoryBranch : String) : PolicyUpdater :=
  { project := { Url := repository, SSHKey := some repositoryKey, Branch := repositoryBranch,
                 Hash := "", PolicyBundles := [⟨"", []⟩] } }

/-- One call of the walk function by `util.Walk`: the path, what the file info
says, the error `util.Walk` passes, and what opening and reading the file give
(`data` is `bundle.Data` after `file.Read`). A call with a nil file info (after
a failed `Lstat`), on which the walk function dereferences nil, is not
represented. -/
structure WalkEntry where
  fileName : String
  isRegular : Bool
  isDir : Bool
  walkErr : Option String
  openErr : Option String
  data : Bytes
  readErr : Option String
deriving DecidableEq, Repr

/-- The repository provider at the time of one call: the outcome of deriving the
credential, of listing the remote (hashes of the advertised references, as hex
text), of cloning, of getting the worktree, and the files the walk visits in
walk order. -/
structure Remote where
  authKeyErr : Option String
  list : List String × Option String
  cloneErr : Option String
  worktreeErr : Option String
  walk : List WalkEntry
deriving DecidableEq, Repr

/-- The function `errors.Join` of two errors, as the text of the joined error. -/
def errorsJoin (a b : String) : String := a ++ "\n" ++ b

/-- The function `strings.HasSuffix`. -/
def stringsHasSuffix (s suffix : String) : Bool := suffix.toList.isSuffixOf s.toList

/-- The call `strings.Replace(s, old, new, 1)` on the characters: the first
occurrence of `old` is replaced by `new`. -/
def replaceFirst {α : Type} [DecidableEq α] (old new : List α) : List α → List α
  | [] => if old = [] then new else []
  | c :: cs =>
    if old.isPrefixOf (c :: cs) then new ++ (c :: cs).drop old.length
    else c :: replaceFirst old new cs

/-- The call `strings.Replace(s, old, new, 1)`. -/
def stringsReplace1 (s old new : String) : String :=
  ⟨replaceFirst old.toList new.toList s.toList⟩

/-- The hex text of `plumbing.ZeroHash`. -/
def zeroHash : String := "0000000000000000000000000000000000000000"

/-- The method `getAuthKey`: the error it returns. -/
def PolicyUpdater.getAuthKey (_b : PolicyUpdater) (env : Remote) : Option String :=
  match env.authKeyErr with
  | some err => some (errorsJoin err "failed to get authkey")
  | none => none

/-- The loop of `getGitRemoteHead` over the listed references. -/
def firstNonZero : List String → String × Option String
  | [] => ("", some "failed to find non zero commit")
  | h :: hs => if h ≠ zeroHash then (h, none) else firstNonZero hs

/-- The method `getGitRemoteHead`. -/
def PolicyUpdater.getGitRemoteHead (b : PolicyUpdater) (env : Remote) : String × Option String :=
  match b.project.SSHKey, b.getAuthKey env with
  | some _, some err => ("", some err)
  | _, _ =>
    match env.list with
    | (_, some err) => ("", some (errorsJoin err "failed to list remote"))
    | (list, none) => firstNonZero list

/-- The method `getGitRepo`: the error it returns. -/
def PolicyUpdater.getGitRepo (b : PolicyUpdater) (env : Remote) : Option String :=
  match b.project.SSHKey, b.getAuthKey env with
  | some _, some err => some err
  | _, _ =>
    match env.cloneErr with
    | some err => some (errorsJoin err "failed to clone")
    | none => none

/-- The walk function passed to `util.Walk` by `GenerateBundles`: the bundles
afterwards and the error it returns. -/
def walkFn (bundles : List PolicyBundle) (e : WalkEntry) : List PolicyBundle × Option String :=
  if !e.isRegular || e.walkErr ≠ none then (bundles, none)
  else if e.isDir then (bundles, none)
  else if !stringsHasSuffix e.fileName ".rego" then (bundles, none)
  else
    match e.openErr with
    | some err => (bundles, some (errorsJoin err "failed to open file"))
    | none =>
      let path := stringsReplace1 e.fileName ".rego" ""
      let bundle : PolicyBundle := { Name := path, Data := e.data }
      match e.readErr with
      | some err => (bundles, some (errorsJoin err "failed to read policy"))
      | none => (bundles ++ [bundle], none)

/-- The function `util.Walk` with the walk function above: visits the entries in
order and stops at the first error the walk function returns. -/
def utilWalk : List WalkEntry → List PolicyBundle → List PolicyBundle × Option String
  | [], bundles => (bundles, none)
  | e :: es, bundles =>
    match walkFn bundles e with
    | (bundles1, some err) => (bundles1, some err)
    | (bundles1, none) => utilWalk es bundles1

/-- The method `GenerateBundles`. -/
def PolicyUpdater.GenerateBundles (b : PolicyUpdater) (env : Remote) :
    List PolicyBundle × Option String :=
  match b.getGitRepo env with
  | some err => ([], some err)
  | none =>
    match env.worktreeErr with
    | some err => ([], some (errorsJoin err "failed to get worktree"))
    | none =>
      match utilWalk env.walk [] with
      | (_, some err) => ([], some (errorsJoin err "failed to walk fs"))
      | (bundles, none) => (bundles, none)

/-- The method `CheckForUpdates`. -/
def PolicyUpdater.CheckForUpdates (b : PolicyUpdater) (env : Remote) :
    PolicyProjectUpdate × Option String :=
  let update : PolicyProjectUpdate :=
    { Available := false, OldHash := b.project.Hash, NewHash := b.project.Hash }
  match b.getGitRemoteHead env with
  | (_, some err) => (update, some err)
  | (head, none) =>
    if b.project.Hash ≠ head then
      ({ update with NewHash := head, Available := true }, none)
    else (update, none)

/-- What `RunUpdate` does besides changing the updater: a call of
`GenerateBundles`, a call of the event handler with the bundles given. -/
inductive Effect where
  | generate
  | handler (bundles : List PolicyBundle)
deriving DecidableEq, Repr

/-- The method `RunUpdate`: the updater afterwards, the returned error and the
effects in order. `ctxErr` is `ctx.Err()`. -/
def PolicyUpdater.RunUpdate (b : PolicyUpdater) (env : Remote) (ctxErr : Option String) :
    PolicyUpdater × Option String × List Effect :=
  if ctxErr ≠ none then (b, none, [])
  else
    match b.CheckForUpdates env with
    | (_, some err) => (b, some err, [])
    | (update, none) =>
      if update.Available then
        match b.GenerateBundles env with
        | (_, some err) => (b, some err, [Effect.generate])
        | (bundles, none) =>
          ({ b with project := { b.project with Hash := update.NewHash, PolicyBundles := bundles } },
            none, [Effect.generate, Effect.handler bundles])
      else (b, none, [])

/-! ## util/backoff.go

The value of `rand.Float64()` is the argument `rand`, and a `float64` is the
rational it denotes. The functions are embedded twice: with the arithmetic
taken as exact (`Backoff`, `DefaultBackoff`), and with every `float64`
operation rounded to the nearest binary64 value as the processor does
(`Backoff64`, `DefaultBackoff64`). -/

/-- The conversion `time.Duration(x)` of a `float64`: truncation toward zero
(for a value within the range of `int64`). -/
def truncDuration (x : ℚ) : Int := if 0 ≤ x then ⌊x⌋ else ⌈x⌉

/-- The loop `for backoff < max && retries > 0` of `Backoff`, arithmetic taken
as exact: the value of `backoff` after it. -/
def backoffLoop (max factor : ℚ) : Nat → ℚ → ℚ
  | 0, backoff => backoff
  | retries + 1, backoff =>
    if backoff < max then backoffLoop max factor retries (backoff * factor) else backoff

/-- The value of `backoff` in `Backoff` after the loop and the cap, before the
jitter is applied, arithmetic taken as exact. -/
def backoffCapped (base max factor : ℚ) (retries : Int) : ℚ :=
  let backoff := backoffLoop max factor retries.toNat base
  if backoff > max then max else backoff

/-- The function `Backoff`, arithmetic taken as exact. -/
def Backoff (base max jitter factor : ℚ) (retries : Int) (rand : ℚ) : Int :=
  if retries = 0 then 0
  else
    let backoff := backoffCapped base max factor retries
    let backoff := backoff * (1 + jitter * (rand * 2 - 1))
    if backoff < 0 then 0 else truncDuration backoff

/-- The function `DefaultBackoff`, arithmetic taken as exact. -/
def DefaultBackoff (base max : ℚ) (retries : Int) (rand : ℚ) : Int :=
  Backoff base max (2 / 10) (16 / 10) retries rand

/-! ### binary64 arithmetic -/

/-- Rounding of a rational to the nearest integer, a tie going to the even one. -/
def roundHalfEven (y : ℚ) : Int :=
  if y - ⌊y⌋ < 1 / 2 then ⌊y⌋
  else if 1 / 2 < y - ⌊y⌋ then ⌊y⌋ + 1
  else if ⌊y⌋ % 2 = 0 then ⌊y⌋ else ⌊y⌋ + 1

/-- The exponent of the unit in the last place of the binary64 values around
`x`: 52 below the binary exponent of `x`, and -1074 in the subnormal range. -/
def ulpExp (x : ℚ) : Int := max (Int.log 2 |x| - 52) (-1074)

/-- The binary64 value nearest to `x`, ties to even: what a `float64` operation
or conversion with exact result `x` yields (below the overflow threshold). -/
def fl64 (x : ℚ) : ℚ := (roundHalfEven (x / 2 ^ ulpExp x) : ℚ) * 2 ^ ulpExp x

/-- The loop `for backoff < max && retries > 0` of `Backoff` in binary64: the
value of `backoff` after it. -/
def backoffLoop64 (max factor : ℚ) : Nat → ℚ → ℚ
  | 0, backoff => backoff
  | retries + 1, backoff =>
    if backoff < max then backoffLoop64 max factor retries (fl64 (backoff * factor)) else backoff

/-- The factor `1 + jitter*(rand.Float64()*2-1)` of `Backoff` in binary64, each
operation rounded. -/
def jitterFactor64 (jitter rand : ℚ) : ℚ :=
  fl64 (1 + fl64 (jitter * fl64 (fl64 (rand * 2) - 1)))

/-- The function `Backoff` in binary64. -/
def Backoff64 (base max jitter factor : ℚ) (retries : Int) (rand : ℚ) : Int :=
  if retries = 0 then 0
  else
    let backoff := backoffLoop64 max factor retries.toNat base
    let backoff := if backoff > max then max else backoff
    let backoff := fl64 (backoff * jitterFactor64 jitter rand)
    if backoff < 0 then 0 else truncDuration backoff

/-- The function `DefaultBackoff` in binary64; the constants `.2` and `1.6` are
the binary64 values nearest to them. -/
def DefaultBackoff64 (base max : ℚ) (retries : Int) (rand : ℚ) : Int :=
  Backoff64 base max (fl64 (2 / 10)) (fl64 (16 / 10)) retries rand

/-! ## logger.go: the delay between cycles -/

/-- The constant `minRetryDelay`, in nanoseconds. -/
def minRetryDelay : Int := 100000000

/-- The delay `loop` waits after a cycle that returned no error, from the stored
bounds `min` and `max`, in binary64: the conversions `float64(min)` and
`float64(max)`, the subtraction, the product and the sum are each rounded. -/
def successDelay (min max : Int) (rand : ℚ) : Int :=
  truncDuration (fl64 (fl64 (fl64 (fl64 (max : ℚ) - fl64 (min : ℚ)) * rand) + fl64 (min : ℚ)))

/-- The delay `loop` computes after `doOneShot` returned `err`, `retry` being the
retry counter. The result is `none` when the Go code would dereference a nil
bound in the configuration. -/
def decisionLogger.loopDelay (l : decisionLogger) (err : Option String) (retry : Int)
    (rand : ℚ) : Option Int :=
  match err with
  | none => do
    let min ← l.config.MinDelaySeconds
    let max ← l.config.MaxDelaySeconds
    return successDelay min max rand
  | some _ => do
    let max ← l.config.MaxDelaySeconds
    return DefaultBackoff64 (fl64 (minRetryDelay : ℚ)) (fl64 (max : ℚ)) retry rand

/-! ## JSON values -/

/-- A JSON value, as `encoding/json` writes it. -/
inductive Json where
  | null
  | bool (b : Bool)
  | num (n : Int)
  | str (s : String)
  | arr (items : List Json)
  | obj (fields : List (String × Json))

/-- The keys of a JSON object, in the order written; none for other values. -/
def Json.keys : Json → List String
  | .obj fields => fields.map Prod.fst
  | _ => []

/-- The value under a key of a JSON object. -/
def Json.field (j : Json) (key : String) : Option Json :=
  match j with
  | .obj fields => (fields.find? fun f => f.1 == key).map Prod.snd
  | _ => none

/-! ## pkg/pdp/models.go -/

/-- The struct `DecisionUser`; the attribute values are kept as JSON. -/
structure DecisionUser where
  Key : String
  Attributes : List (String × Json)

/-- The struct `DecisionRequest`. -/
structure DecisionRequest where
  User : DecisionUser
  Action : String
  Permission : String
  Path : String

/-- The struct `DecisionResult`; `Result` is the value of the `interface{}` as
`encoding/json` writes it, `Input` the request echoed, `Timestamp` its text. -/
structure DecisionResult where
  ID : String
  Result : Json
  Path : String
  Input : DecisionRequest
  RequestedBy : String
  Timestamp : String

/-- The struct `DecisionOptions`; the handler passes the request as `Input`. -/
structure DecisionOptions where
  RemoteAddr : String
  Path : String
  Input : DecisionRequest

/-! ## internal/models/pdp.go -/

/-- The struct `DecisionResponse` of package `models`. -/
structure DecisionResponse where
  DecisionID : String
  Result : Json

/-- What `encoding/json` writes for a `DecisionResponse`: one member per field,
named by the field's `json` tag, `decision_id` and `result`. -/
def DecisionResponse.toJson (r : DecisionResponse) : Json :=
  .obj [("decision_id", .str r.DecisionID), ("result", r.Result)]

/-! ## internal/util/validate.go and error_handler.go -/

/-- The struct `ValidationErrorResponse`. -/
structure ValidationErrorResponse where
  FailedField : String
  Tag : String
  Value : String
deriving DecidableEq, Repr

/-- What `encoding/json` writes for a `ValidationErrorResponse`, by its tags. -/
def ValidationErrorResponse.toJson (e : ValidationErrorResponse) : Json :=
  .obj [("failedField", .str e.FailedField), ("tag", .str e.Tag), ("value", .str e.Value)]

/-- One `validator.FieldError`: what `StructNamespace()`, `Tag()` and `Param()` return. -/
structure FieldError where
  StructNamespace : String
  Tag : String
  Param : String
deriving DecidableEq, Repr

/-- The function `ValidateStruct`. `validate` is `validate.Struct`: the field
errors it reports, none when it returns a nil error. The nil slice is `[]`. -/
def ValidateStruct (validate : DecisionRequest → List FieldError) (data : DecisionRequest) :
    List ValidationErrorResponse :=
  (validate data).map fun err =>
    { FailedField := err.StructNamespace, Tag := err.Tag, Value := err.Param }

/-- The function `ReadAndValidate` at `pdp.DecisionRequest`. `req` is the struct
after `c.BodyParser(req)`, whose error is ignored. Returns the Go pair: the
request (`none` is nil) and the validation errors (`[]` is nil). -/
def ReadAndValidate (validate : DecisionRequest → List FieldError) (req : DecisionRequest) :
    Option DecisionRequest × List ValidationErrorResponse :=
  let validationErrors := ValidateStruct validate req
  match validationErrors with
  | _ :: _ => (none, validationErrors)
  | [] => (some req, [])

/-- The constant `fiber.StatusOK`. -/
def StatusOK : Nat := 200
/-- The constant `fiber.StatusBadRequest`. -/
def StatusBadRequest : Nat := 400
/-- The constant `fiber.StatusInternalServerError`. -/
def StatusInternalServerError : Nat := 500
/-- The constant `fiber.StatusServiceUnavailable`. -/
def StatusServiceUnavailable : Nat := 503

/-- An `error` a handler returns: a `*fiber.Error` with its code and message, or
another error with its text. -/
inductive HandlerError where
  | fiber (Code : Nat) (Message : String)
  | other (text : String)
deriving DecidableEq, Repr

/-- The method `Error()` of a handler error. -/
def HandlerError.Error : HandlerError → String
  | .fiber _ message => message
  | .other text => text

/-- The function `fiber.NewError`. -/
def fiberNewError (code : Nat) (message : String) : HandlerError := .fiber code message

/-- An HTTP response: the status and the JSON body written by `c.JSON`. -/
structure Response where
  status : Nat
  body : Json

/-- The struct `ErrorResponse`. -/
structure ErrorResponse where
  StatusCode : Nat
  StatusText : String
deriving DecidableEq, Repr

/-- What `encoding/json` writes for an `ErrorResponse`, by its tags. -/
def ErrorResponse.toJson (e : ErrorResponse) : Json :=
  .obj [("statusCode", .num e.StatusCode), ("statusText", .str e.StatusText)]

/-- The function `CustomErrorHandler`: the response it writes. -/
def CustomErrorHandler (err : HandlerError) : Response :=
  let code := match err with
    | .fiber c _ => c
    | .other _ => StatusInternalServerError
  let response : ErrorResponse := { StatusCode := code, StatusText := err.Error }
  { status := code, body := response.toJson }

/-! ## internal/handlers/pdp.go -/

/-- What `PdpCheck` does: the response it wrote with `c.JSON` if any, the error
it returned, and the calls of `Decision` it made, in order. -/
structure PdpCheckResult where
  written : Option Response
  err : Option HandlerError
  decisionCalls : List DecisionOptions

/-- The method `PdpCheck`. `p` is `r.Permit`; `Decision` is the method
`Decision` of the client, whose evaluation is the policy engine's: its Go
result, the decision or the error; `ip` is `c.IP()`, `req` the body as parsed.
Reading `req.Path` through a nil `req` is the panic that the `recover`
middleware installed in `main` turns into an error. -/
def PdpCheck {S Q : Type} (p : PermitClient S Q)
    (Decision : DecisionOptions → Except String DecisionResult)
    (validate : DecisionRequest → List FieldError) (ip : String) (req : DecisionRequest) :
    PdpCheckResult :=
  let (req, valErrs) := ReadAndValidate validate req
  match valErrs with
  | _ :: _ =>
    ⟨some { status := StatusBadRequest, body := .arr (valErrs.map (·.toJson)) }, none, []⟩
  | [] =>
    if !p.Ready then
      ⟨none, some (fiberNewError StatusServiceUnavailable "PDP not ready: no policies loaded"), []⟩
    else
      match req with
      | none =>
        ⟨none, some (.other "runtime error: invalid memory address or nil pointer dereference"), []⟩
      | some req =>
        let options : DecisionOptions := { RemoteAddr := ip, Path := req.Path, Input := req }
        match Decision options with
        | .error err => ⟨none, some (fiberNewError StatusInternalServerError err), [options]⟩
        | .ok decision =>
          ⟨some { status := StatusOK,
                  body := (DecisionResponse.toJson
                    { DecisionID := decision.ID, Result := decision.Result }) },
            none, [options]⟩

/-- The response the application sends for a request to the decision endpoint:
what `PdpCheck` wrote, or what the error handler configured in `main`,
`CustomErrorHandler`, writes for the error `PdpCheck` returned. -/
def servePdpCheck {S Q : Type} (p : PermitClient S Q)
    (Decision : DecisionOptions → Except String DecisionResult)
    (validate : DecisionRequest → List FieldError) (ip : String) (req : DecisionRequest) :
    Response :=
  let r := PdpCheck p Decision validate ip req
  match r.err, r.written with
  | some err, _ => CustomErrorHandler err
  | none, some response => response
  | none, none => { status := StatusOK, body := .null }

/-! ## Sample inputs -/

/-- The bytes of a text of ASCII characters. -/
def asciiBytes (s : String) : Bytes := s.toList.map fun c => UInt8.ofNat c.toNat

/-- What `Encode` writes for the zero `DecisionResult`: the JSON object and the
newline `Encode` appends, 107 bytes. -/
def sampleEvent : Bytes :=
  asciiBytes ("\x7b\"decisionId\":\"\",\"result\":null,\"path\":\"\",\"input\":null," ++
    "\"requestedBy\":\"\",\"timestamp\":\"0001-01-01T00:00:00Z\"\x7d\n")

/-- A store whose operations all succeed: the policies upserted so far. -/
def okStore : StoreOps (List (String × String)) Unit where
  new := []
  NewTransaction s := (s, (), none)
  UpsertPolicy s _ path data := ((path, data) :: s, none)
  Commit s _ := (s, none)

/-- A store whose commit fails. -/
def failingCommitStore : StoreOps (List (String × String)) Unit where
  new := []
  NewTransaction s := (s, (), none)
  UpsertPolicy s _ _ _ := (s, none)
  Commit s _ := (s, some "commit failed")

/-- A logger configuration with nothing set. -/
def sampleConfig : DecisionLogConfig :=
  { ConsoleLog := false, HTTPLog := true, BufferChunkSizeBytes := none,
    BufferSizeLimitBytes := none, MinDelaySeconds := none, MaxDelaySeconds := none,
    Endpoint := "", EndpointTimeout := 0, BearerToken := "" }

/-- The logger `newLogger` builds from `sampleConfig`. -/
def sampleLogger : decisionLogger :=
  { config := sampleConfig.injectDefaults defaultMinDelaySeconds defaultMaxDelaySeconds,
    buffer := newLogBuffer 0, enc := newChunkEncoder 32768 }

/-- A client as built by `New`, over `okStore`, with queries named by numbers. -/
def sampleClient : PermitClient (List (String × String)) Nat :=
  { logger := sampleLogger, store := [], queryCache := newQueryCache, policiesLoaded := false }

/-- A regular file of the synced tree that opens and reads without error. -/
def regularFile (fileName : String) (data : Bytes) : WalkEntry :=
  { fileName := fileName, isRegular := true, isDir := false, walkErr := none,
    openErr := none, data := data, readErr := none }

/-- A remote whose head is `head` and whose tree is `walk`, every step succeeding. -/
def okRemote (head : String) (walk : List WalkEntry) : Remote :=
  { authKeyErr := none, list := ([head], none), cloneErr := none, worktreeErr := none,
    walk := walk }

/-- A remote whose head is `head` and whose clone fails. -/
def failingCloneRemote (head : String) : Remote :=
  { authKeyErr := none, list := ([head], none), cloneErr := some "connection refused",
    worktreeErr := none, walk := [] }

/-- An updater as built by `NewPolicyUpdater`. -/
def sampleUpdater : PolicyUpdater := NewPolicyUpdater "git@example.org:policies.git" "key" "main"

/-- A decision request for the path `example/allow`. -/
def sampleRequest : DecisionRequest :=
  { User := { Key := "alice", Attributes := [] }, Action := "read", Permission := "document",
    Path := "example/allow" }

/-- A validator that reports no error. -/
def acceptRequest : DecisionRequest → List FieldError := fun _ => []

/-- A validator that reports the key of the user as missing. -/
def rejectRequest : DecisionRequest → List FieldError :=
  fun _ => [{ StructNamespace := "DecisionRequest.User.Key", Tag := "required", Param := "" }]

/-- A `Decision` that allows every request under the identifier `d-1`. -/
def allowAll : DecisionOptions → Except String DecisionResult := fun options =>
  .ok { ID := "d-1", Result := .bool true, Path := options.Path, Input := options.Input,
        RequestedBy := options.RemoteAddr, Timestamp := "2024-01-01T00:00:00Z" }

/-- A client on which one `Activate` has succeeded. -/
def readyClient : PermitClient (List (String × String)) Nat :=
  (sampleClient.Activate okStore "example" "package example").1

/-- A logger configuration with both delays set, in seconds. -/
def delayConfig (min max : Int) : DecisionLogConfig :=
  { sampleConfig with MinDelaySeconds := some min, MaxDelaySeconds := some max }

/-! ## Definitions used in the statements -/

/-- The bytes `Write` adds to the open stream for the events `bss` when none of
them crosses the limit, `n` being the counter before the first of them. -/
def framed : Nat → List Bytes → Bytes
  | _, [] => []
  | n, bs :: rest => (if n = 0 then lbracket else comma) ++ bs ++ framed (n + 1 + bs.length) rest

/-- The framed size of the events: the sum of `len + 1`. -/
def framedSize (bss : List Bytes) : Nat := (bss.map fun bs => bs.length + 1).sum

/-- The files for which the walk function of `GenerateBundles` goes on to build
a bundle: regular, passed without error, not a directory, path ending in `.rego`. -/
def selected (e : WalkEntry) : Bool :=
  e.isRegular && e.walkErr == none && !e.isDir && stringsHasSuffix e.fileName ".rego"

/-- The bundle the walk function of `GenerateBundles` builds for a file. -/
def bundleOf (e : WalkEntry) : PolicyBundle :=
  { Name := stringsReplace1 e.fileName ".rego" "", Data := e.data }

/-- A logger as built by `newLogger` whose buffer holds two chunks. -/
def twoChunkLogger : decisionLogger :=
  { sampleLogger with buffer := ⟨0, [⟨jsonArray [sampleEvent]⟩, ⟨jsonArray [sampleEvent, sampleEvent]⟩]⟩ }

/-- An endpoint that accepts the first upload of a cycle and rejects the others. -/
def failAfterFirst : Nat → Chunk → Option String :=
  fun i _ => if i = 0 then none else some "log upload invalid status code: 503"

/-- An endpoint that accepts every upload. -/
def acceptAll : Nat → Chunk → Option String := fun _ _ => none

/-- A stand-in for the compressed length of a chunk. -/
def sampleSize : Chunk → Nat := fun c => c.gunzip.length

/-- The state of an encoder between calls: the open chunk holds the framed
events `bss` (none, or within the limit) and the counter is their framed size. -/
def EncInv (limit : Int) (enc : chunkEncoder) : Prop :=
  enc.flushLimit = limit ∧ ∃ bss : List Bytes, (∀ bs ∈ bss, bs ≠ [])
    ∧ enc.buf = some (framed 0 bss) ∧ enc.bytesWritten = framedSize bss
    ∧ (bss = [] ∨ ((framedSize bss : Nat) : Int) ≤ limit)

/-- A call whose event, if any, fits the limit on its own: `len + 1 ≤ limit`. -/
def EncOp.Fits (limit : Int) : EncOp → Prop
  | .write (.ok bs) => ((bs.length + 1 : Nat) : Int) ≤ limit
  | _ => True

/-! ## Theorems: chunk encoder -/

theorem framed_succ (n : Nat) (bss : List Bytes) :
    framed (n + 1) bss = (bss.map fun bs => comma ++ bs).flatten := by
  induction bss generalizing n with
  | nil => simp [framed]
  | cons bs rest ih =>
    have h : n + 1 + 1 + bs.length = (n + 1 + bs.length) + 1 := by omega
    simp [framed, h, ih]

theorem flatten_intersperse_cons (bs : Bytes) (rest : List Bytes) :
    (List.intersperse comma (bs :: rest)).flatten
      = bs ++ (rest.map fun b => comma ++ b).flatten := by
  induction rest generalizing bs with
  | nil => simp
  | cons b rest ih =>
    rw [List.intersperse_cons_cons, List.flatten_cons, List.flatten_cons, ih]
    simp

theorem framed_zero (bs : Bytes) (rest : List Bytes) :
    framed 0 (bs :: rest) ++ rbracket = jsonArray (bs :: rest) := by
  have h : 0 + 1 + bs.length = bs.length + 1 := by omega
  simp [framed, jsonArray, h, framed_succ, flatten_intersperse_cons]

theorem Write_within (limit : Int) (n : Nat) (b bs : Bytes) (hbs : bs ≠ [])
    (h : ((bs.length + n + 1 : Nat) : Int) ≤ limit) :
    chunkEncoder.Write ⟨limit, n, some b⟩ (.ok bs)
      = (⟨limit, n + 1 + bs.length, some (b ++ (if n = 0 then lbracket else comma) ++ bs)⟩,
          [], none) := by
  have hlen : bs.length ≠ 0 := by simpa using hbs
  have hnot : ¬ (((bs.length + n + 1 : Nat) : Int) > limit) := by omega
  unfold chunkEncoder.Write
  simp only [hlen, if_false, hnot, chunkEncoder.wWrite]
  by_cases hn : n = 0
  · subst hn; simp [lbracket]
  · simp [hn, comma]

theorem writeAll_within (limit : Int) (bss : List Bytes) (hbs : ∀ bs ∈ bss, bs ≠ []) :
    ∀ (n : Nat) (b : Bytes), ((n + framedSize bss : Nat) : Int) ≤ limit →
      chunkEncoder.writeAll ⟨limit, n, some b⟩ bss
        = (⟨limit, n + framedSize bss, some (b ++ framed n bss)⟩,
            List.replicate bss.length ([], none)) := by
  induction bss with
  | nil => intro n b _; simp [chunkEncoder.writeAll, chunkEncoder.run, framedSize, framed]
  | cons bs rest ih =>
    intro n b h
    have hbs1 : bs ≠ [] := hbs bs (by simp)
    have hrest : ∀ x ∈ rest, x ≠ [] := fun x hx => hbs x (by simp [hx])
    have hsz : framedSize (bs :: rest) = (bs.length + 1) + framedSize rest := by
      simp [framedSize]
    have h1 : ((bs.length + n + 1 : Nat) : Int) ≤ limit := by
      rw [hsz] at h; omega
    have h2 : (((n + 1 + bs.length) + framedSize rest : Nat) : Int) ≤ limit := by
      rw [hsz] at h; omega
    have ih1 := ih hrest (n + 1 + bs.length) (b ++ (if n = 0 then lbracket else comma) ++ bs) h2
    unfold chunkEncoder.writeAll at ih1 ⊢
    simp only [List.map_cons, chunkEncoder.run, chunkEncoder.step, Write_within limit n b bs hbs1 h1,
      ih1, hsz, framed, List.length_cons, List.replicate_succ]
    refine Prod.ext ?_ rfl
    simp only [List.append_assoc]
    congr 1
    omega

theorem newChunkEncoder_eq (limit : Int) : newChunkEncoder limit = ⟨limit, 0, some []⟩ := rfl

theorem jsonArray_head (bss : List Bytes) : (jsonArray bss).head? = some 91 := by
  simp [jsonArray, lbracket]

/-- C1: on a fresh encoder, an event that is by itself larger than the flush
limit makes `Write` return a chunk that decompresses to the single byte `]`,
which is not a JSON array: no `[` and no event. -/
theorem C1_oversize_first_event_emits_bare_bracket (limit : Int) (bs : Bytes)
    (hbs : bs ≠ []) (hbig : ((bs.length + 1 : Nat) : Int) > limit) :
    ((newChunkEncoder limit).Write (.ok bs)).2 = ([⟨rbracket⟩], none)
    ∧ ¬ Chunk.WellFormed ⟨rbracket⟩ := by
  constructor
  · have hlen : bs.length ≠ 0 := by simpa using hbs
    have hgt : ((bs.length + 0 + 1 : Nat) : Int) > limit := by simpa using hbig
    rw [newChunkEncoder_eq]
    unfold chunkEncoder.Write
    simp only [hlen, if_false, hgt, if_true, chunkEncoder.writeClose, chunkEncoder.wWrite,
      chunkEncoder.update, chunkEncoder.initialize, Option.map_some, List.nil_append]
    rfl
  · rintro ⟨bss, _, _, h⟩
    have h1 := jsonArray_head bss
    rw [← h] at h1
    simp [rbracket] at h1

/-- C1, at an event of 107 bytes under a limit of 64 bytes. -/
theorem C1_oversize_first_event_emits_bare_bracket_witness :
    ((newChunkEncoder 64).Write (.ok sampleEvent)).2 = ([⟨rbracket⟩], none) :=
  (C1_oversize_first_event_emits_bare_bracket 64 sampleEvent (by decide) (by decide)).1

/-- C2: events whose framed size (the sum of `len + 1`) stays within the flush
limit are all accepted by `Write` without a chunk and without an error, the
following `Flush` returns exactly one chunk, which decompresses to
`[` e1 `,` ... `,` en `]` in the order written, and `Flush` on an encoder
nothing was written to returns no chunk. -/
theorem C2_within_limit_one_chunk_on_flush (limit : Int) (bss : List Bytes)
    (hne : bss ≠ []) (hbs : ∀ bs ∈ bss, bs ≠ [])
    (hsum : (((bss.map fun bs => bs.length + 1).sum : Nat) : Int) ≤ limit) :
    (∀ out ∈ ((newChunkEncoder limit).writeAll bss).2, out = ([], none))
    ∧ ((newChunkEncoder limit).writeAll bss).2.length = bss.length
    ∧ (((newChunkEncoder limit).writeAll bss).1.Flush).2 = ([⟨jsonArray bss⟩], none)
    ∧ ((newChunkEncoder limit).Flush).2 = ([], none) := by
  have hsum1 : ((0 + framedSize bss : Nat) : Int) ≤ limit := by
    simpa [framedSize] using hsum
  have hw := writeAll_within limit bss hbs 0 [] hsum1
  rw [newChunkEncoder_eq, hw]
  refine ⟨?_, by simp, ?_, by simp [chunkEncoder.Flush]⟩
  · intro out hout
    exact List.eq_of_mem_replicate hout
  · cases bss with
    | nil => exact absurd rfl hne
    | cons bs rest =>
      have hpos : 0 + framedSize (bs :: rest) ≠ 0 := by simp [framedSize]
      simp only [chunkEncoder.Flush, hpos, if_false, chunkEncoder.writeClose,
        chunkEncoder.wWrite, chunkEncoder.update, chunkEncoder.initialize, Option.map_some,
        List.nil_append]
      rw [← framed_zero]
      rfl

/-- C2, at two events of 107 bytes each under a limit of 216 bytes. -/
theorem C2_within_limit_one_chunk_on_flush_witness :
    (((newChunkEncoder 216).writeAll [sampleEvent, sampleEvent]).1.Flush).2
      = ([⟨jsonArray [sampleEvent, sampleEvent]⟩], none) :=
  (C2_within_limit_one_chunk_on_flush 216 [sampleEvent, sampleEvent] (by decide) (by decide)
    (by decide)).2.2.1

set_option maxRecDepth 8192 in
/-- C3: chunks exceed the flush limit. Two events of 107 bytes under a limit of
216 are both accepted into one chunk and `Flush` emits 217 bytes (the closing
`]` is not counted by the check in `Write`); one event of 107 bytes under a
limit of 64 is written whole and `Flush` emits 109 bytes. -/
theorem C3_chunk_exceeds_limit :
    ((newChunkEncoder 216).writeAll [sampleEvent, sampleEvent]).2 = [([], none), ([], none)]
    ∧ (((newChunkEncoder 216).writeAll [sampleEvent, sampleEvent]).1.Flush).2
        = ([⟨jsonArray [sampleEvent, sampleEvent]⟩], none)
    ∧ (jsonArray [sampleEvent, sampleEvent]).length = 217
    ∧ (((newChunkEncoder 64).writeAll [sampleEvent]).1.Flush).2
        = ([⟨jsonArray [sampleEvent]⟩], none)
    ∧ (jsonArray [sampleEvent]).length = 109 := by
  decide

/-! ## Theorems: the encoder when every event fits the limit -/

theorem framed_length (bss : List Bytes) : ∀ n, (framed n bss).length = framedSize bss := by
  induction bss with
  | nil => intro n; simp [framed, framedSize]
  | cons bs rest ih =>
    intro n
    have hsep : (if n = 0 then lbracket else comma).length = 1 := by
      by_cases h : n = 0 <;> simp [h, lbracket, comma]
    simp only [framed, List.length_append, hsep, ih, framedSize, List.map_cons, List.sum_cons]
    omega

theorem framed_append (bss : List Bytes) (bs : Bytes) :
    ∀ n, framed n (bss ++ [bs])
      = framed n bss ++ (if n + framedSize bss = 0 then lbracket else comma) ++ bs := by
  induction bss with
  | nil => intro n; simp [framed, framedSize]
  | cons b rest ih =>
    intro n
    have hne : ¬ (n + framedSize (b :: rest) = 0) := by simp [framedSize]
    have hne1 : ¬ (n + 1 + b.length + framedSize rest = 0) := by omega
    show framed n (b :: (rest ++ [bs])) = _
    simp only [framed, ih, hne, hne1, if_false, List.append_assoc]

theorem framedSize_append (bss : List Bytes) (bs : Bytes) :
    framedSize (bss ++ [bs]) = framedSize bss + (bs.length + 1) := by
  simp [framedSize]

theorem jsonArray_length (bss : List Bytes) (h : bss ≠ []) :
    (jsonArray bss).length = framedSize bss + 1 := by
  cases bss with
  | nil => exact absurd rfl h
  | cons bs rest =>
    rw [← framed_zero, List.length_append, framed_length]
    simp [rbracket]

theorem EncInv_new (limit : Int) : EncInv limit (newChunkEncoder limit) :=
  ⟨rfl, [], by simp, rfl, rfl, Or.inl rfl⟩

theorem close_update (limit : Int) (n : Nat) (b : Bytes) :
    (chunkEncoder.update (chunkEncoder.writeClose ⟨limit, n, some b⟩).1)
      = (⟨limit, 0, some []⟩, [⟨b ++ rbracket⟩]) := rfl

theorem Flush_inv (limit : Int) (enc : chunkEncoder) (h : EncInv limit enc) :
    EncInv limit (enc.Flush).1
    ∧ ∀ c ∈ (enc.Flush).2.1, c.WellFormed ∧ ((c.gunzip.length : Nat) : Int) ≤ limit + 1 := by
  obtain ⟨hl, bss, hne, hbuf, hbw, hfit⟩ := h
  cases enc with
  | mk fl bw buf =>
    simp only at hl hbuf hbw
    subst hl hbuf hbw
    by_cases h0 : framedSize bss = 0
    · simp only [chunkEncoder.Flush, h0, if_true]
      exact ⟨⟨rfl, bss, hne, rfl, h0.symm, hfit⟩, by simp⟩
    · have hbss : bss ≠ [] := by
        intro hnil; apply h0; rw [hnil]; rfl
      have hfit1 : ((framedSize bss : Nat) : Int) ≤ fl := hfit.resolve_left hbss
      obtain ⟨b0, rest, hcons⟩ := List.exists_cons_of_ne_nil hbss
      simp only [chunkEncoder.Flush, h0, if_false, chunkEncoder.writeClose, chunkEncoder.wWrite,
        chunkEncoder.update, chunkEncoder.initialize, Option.map_some']
      refine ⟨⟨rfl, [], by simp, rfl, rfl, Or.inl rfl⟩, ?_⟩
      intro c hc
      simp only [List.mem_singleton] at hc
      subst hc
      have hj : framed 0 bss ++ rbracket = jsonArray bss := by
        rw [hcons]; exact framed_zero b0 rest
      refine ⟨⟨bss, hbss, hne, hj⟩, ?_⟩
      simp only [hj, jsonArray_length bss hbss]
      omega

theorem Write_crossing (limit : Int) (n : Nat) (b bs : Bytes) (hbs : bs ≠ [])
    (h : ((bs.length + n + 1 : Nat) : Int) > limit) :
    chunkEncoder.Write ⟨limit, n, some b⟩ (.ok bs)
      = (⟨limit, 0 + 1 + bs.length, some ([] ++ lbracket ++ bs)⟩, [⟨b ++ rbracket⟩], none) := by
  have hlen : bs.length ≠ 0 := by simpa using hbs
  unfold chunkEncoder.Write
  simp only [hlen, if_false, h, if_true, chunkEncoder.writeClose, chunkEncoder.wWrite,
    chunkEncoder.update, chunkEncoder.initialize, Option.map_some']
  simp [lbracket]

theorem Write_inv (limit : Int) (enc : chunkEncoder) (encoded : Except String Bytes)
    (h : EncInv limit enc) (hfits : (EncOp.write encoded).Fits limit) :
    EncInv limit (enc.Write encoded).1
    ∧ ∀ c ∈ (enc.Write encoded).2.1,
        c.WellFormed ∧ ((c.gunzip.length : Nat) : Int) ≤ limit + 1 := by
  cases encoded with
  | error e => exact ⟨by simpa [chunkEncoder.Write] using h, by simp [chunkEncoder.Write]⟩
  | ok bs =>
    by_cases hbs : bs = []
    · subst hbs
      exact ⟨by simpa [chunkEncoder.Write] using h, by simp [chunkEncoder.Write]⟩
    · obtain ⟨hl, bss, hne, hbuf, hbw, hfit⟩ := h
      have hfits1 : ((bs.length + 1 : Nat) : Int) ≤ limit := hfits
      cases enc with
      | mk fl bw buf =>
        simp only at hl hbuf hbw
        subst hl hbuf hbw
        by_cases hcross : ((bs.length + framedSize bss + 1 : Nat) : Int) > fl
        · rw [Write_crossing fl (framedSize bss) (framed 0 bss) bs hbs hcross]
          have hpos : framedSize bss ≠ 0 := by
            intro h0
            rw [h0] at hcross
            omega
          have hbss : bss ≠ [] := by
            intro hnil; apply hpos; rw [hnil]; rfl
          have hfit1 : ((framedSize bss : Nat) : Int) ≤ fl := hfit.resolve_left hbss
          obtain ⟨b0, rest, hcons⟩ := List.exists_cons_of_ne_nil hbss
          have hj : framed 0 bss ++ rbracket = jsonArray bss := by
            rw [hcons]; exact framed_zero b0 rest
          refine ⟨⟨rfl, [bs], by simpa using hbs, by simp [framed], by simp [framedSize]; omega,
            Or.inr (by simp only [framedSize, List.map_cons, List.map_nil, List.sum_cons,
              List.sum_nil]; omega)⟩, ?_⟩
          intro c hc
          simp only [List.mem_singleton] at hc
          subst hc
          refine ⟨⟨bss, hbss, hne, hj⟩, ?_⟩
          simp only [hj, jsonArray_length bss hbss]
          omega
        · have hle : ((bs.length + framedSize bss + 1 : Nat) : Int) ≤ fl := by omega
          rw [Write_within fl (framedSize bss) (framed 0 bss) bs hbs hle]
          refine ⟨⟨rfl, bss ++ [bs], ?_, ?_, ?_, Or.inr ?_⟩, by simp⟩
          · intro x hx
            rcases List.mem_append.mp hx with hx | hx
            · exact hne x hx
            · simp only [List.mem_singleton] at hx
              subst hx
              exact hbs
          · simp [framed_append]
          · simp only [framedSize_append]; omega
          · rw [framedSize_append]; omega

theorem run_inv (limit : Int) (ops : List EncOp) :
    ∀ enc, EncInv limit enc → (∀ op ∈ ops, op.Fits limit) →
      ∀ out ∈ (enc.run ops).2, ∀ c ∈ out.1,
        c.WellFormed ∧ ((c.gunzip.length : Nat) : Int) ≤ limit + 1 := by
  induction ops with
  | nil => intro enc _ _ out hout; simp [chunkEncoder.run] at hout
  | cons op rest ih =>
    intro enc hinv hfits out hout
    have hstep : EncInv limit (enc.step op).1
        ∧ ∀ c ∈ (enc.step op).2.1,
            c.WellFormed ∧ ((c.gunzip.length : Nat) : Int) ≤ limit + 1 := by
      cases op with
      | write encoded => exact Write_inv limit enc encoded hinv (hfits _ (by simp))
      | flush => exact Flush_inv limit enc hinv
    simp only [chunkEncoder.run, List.mem_cons] at hout
    rcases hout with hout | hout
    · subst hout
      exact hstep.2
    · exact ih _ hstep.1 (fun o ho => hfits o (by simp [ho])) out hout

/-- Where the encoder keeps its promise: on a fresh encoder, whatever the calls
of `Write` and `Flush`, if every event written fits the limit on its own
(`len + 1 ≤ limit`), every chunk returned is a well-formed array of at least one
event and its uncompressed length is at most the limit plus one (the closing
`]`). -/
theorem chunks_wellFormed_when_events_fit (limit : Int) (ops : List EncOp)
    (hfits : ∀ op ∈ ops, op.Fits limit) :
    ∀ out ∈ ((newChunkEncoder limit).run ops).2, ∀ c ∈ out.1,
      c.WellFormed ∧ ((c.gunzip.length : Nat) : Int) ≤ limit + 1 :=
  run_inv limit ops _ (EncInv_new limit) hfits

/-! ## Theorems: query cache -/

/-- C4: `Get` is a get-or-compute. A present key returns the stored query, calls
`orElse` not at all and leaves the cache as it was; an absent key whose
`orElse` succeeds returns that result, having called `orElse` once, and the
cache afterwards maps the key to that result and every other key as before, so
that a second `Get` of the key returns the same result without calling its
`orElse`; an absent key whose `orElse` fails returns an error and leaves the
cache as it was. -/
theorem C4_get_or_compute {Q : Type} (nilQ : Q) (qc : queryCache Q) (key : String)
    (orElse : String → Q × Option String) :
    (∀ q, qc.cache key = some q →
        (qc.Get nilQ key orElse).result = q ∧ (qc.Get nilQ key orElse).err = none
        ∧ (qc.Get nilQ key orElse).calls = [] ∧ (qc.Get nilQ key orElse).qc = qc)
    ∧ (qc.cache key = none → (orElse key).2 = none →
        (qc.Get nilQ key orElse).result = (orElse key).1
        ∧ (qc.Get nilQ key orElse).err = none
        ∧ (qc.Get nilQ key orElse).calls = [key]
        ∧ (qc.Get nilQ key orElse).qc.cache key = some (orElse key).1
        ∧ (∀ k, k ≠ key → (qc.Get nilQ key orElse).qc.cache k = qc.cache k)
        ∧ (∀ orElse2 : String → Q × Option String,
            ((qc.Get nilQ key orElse).qc.Get nilQ key orElse2).result = (orElse key).1
            ∧ ((qc.Get nilQ key orElse).qc.Get nilQ key orElse2).err = none
            ∧ ((qc.Get nilQ key orElse).qc.Get nilQ key orElse2).calls = []))
    ∧ (qc.cache key = none → (orElse key).2 ≠ none →
        (qc.Get nilQ key orElse).err = some "failed to get prepared query from cache"
        ∧ (qc.Get nilQ key orElse).result = nilQ
        ∧ (qc.Get nilQ key orElse).qc = qc) := by
  refine ⟨?_, ?_, ?_⟩
  · intro q hq
    simp [queryCache.Get, hq]
  · intro hk he
    have hget : qc.Get nilQ key orElse
        = ⟨⟨fun k => if k = key then some (orElse key).1 else qc.cache k⟩,
            (orElse key).1, none, [key]⟩ := by
      simp [queryCache.Get, hk, he]
    rw [hget]
    refine ⟨rfl, rfl, rfl, by simp, ?_, ?_⟩
    · intro k hne
      simp [hne]
    · intro orElse2
      simp [queryCache.Get]
  · intro hk he
    simp [queryCache.Get, hk, he]

/-- C4, on the empty cache with an `orElse` that returns query 7. -/
theorem C4_get_or_compute_witness :
    ((newQueryCache : queryCache Nat).Get 0 "data.example.allow" (fun _ => (7, none))).result = 7
    ∧ (((newQueryCache : queryCache Nat).Get 0 "data.example.allow" (fun _ => (7, none))).qc.Get 0
        "data.example.allow" (fun _ => (9, none))).result = 7 :=
  have h := (C4_get_or_compute (0 : Nat) (newQueryCache : queryCache Nat) "data.example.allow"
    (fun _ => (7, none))).2.1 rfl rfl
  ⟨h.1, (h.2.2.2.2.2 (fun _ => (9, none))).1⟩

/-! ## Theorems: activation -/

theorem Activate_cases {S T Q : Type} (ops : StoreOps S T) (p : PermitClient S Q)
    (path policyData : String) :
    ((p.Activate ops path policyData).2 = none
      ∧ (p.Activate ops path policyData).1.queryCache = p.queryCache.Clear
      ∧ (p.Activate ops path policyData).1.policiesLoaded = true)
    ∨ ((p.Activate ops path policyData).2 ≠ none
      ∧ (p.Activate ops path policyData).1.queryCache = p.queryCache
      ∧ (p.Activate ops path policyData).1.policiesLoaded = p.policiesLoaded) := by
  unfold PermitClient.Activate
  rcases h1 : ops.NewTransaction p.store with ⟨s1, txn, _ | e1⟩
  · rcases h2 : ops.UpsertPolicy s1 txn path policyData with ⟨s2, _ | e2⟩
    · rcases h3 : ops.Commit s2 txn with ⟨s3, _ | e3⟩
      · simp [h2, h3]
      · simp [h2, h3]
    · simp [h2]
  · simp

theorem activateAll_ready {S T Q : Type} (ops : StoreOps S T)
    (calls : List (String × String)) :
    ∀ p : PermitClient S Q,
      ((p.activateAll ops calls).1.Ready = true
        ↔ (p.Ready = true ∨ none ∈ (p.activateAll ops calls).2)) := by
  induction calls with
  | nil => intro p; simp [PermitClient.activateAll]
  | cons c rest ih =>
    intro p
    obtain ⟨path, policyData⟩ := c
    simp only [PermitClient.activateAll, List.mem_cons]
    rw [ih]
    rcases Activate_cases ops p path policyData with ⟨h1, _, h3⟩ | ⟨h1, _, h3⟩
    · simp [PermitClient.Ready, h1, h3]
    · have hne : ¬ (none = (p.Activate ops path policyData).2) := fun h => h1 h.symm
      simp [PermitClient.Ready, h3, hne]

/-- C5: `Activate` is all-or-nothing on the cache and on `Ready()`. When the
transaction opens, the upsert and the commit all succeed it returns no error,
the query cache is empty and `Ready()` is true; when one of the three fails it
returns that step's error and the cache and `Ready()` are as before the call.
Hence, from a client built by `New`, `Ready()` is true after a sequence of
`Activate` calls exactly when one of them returned no error. -/
theorem C5_activate_all_or_nothing {S T Q : Type} (ops : StoreOps S T) (p : PermitClient S Q)
    (path policyData : String) :
    (∀ s1 txn s2 s3, ops.NewTransaction p.store = (s1, txn, none) →
        ops.UpsertPolicy s1 txn path policyData = (s2, none) →
        ops.Commit s2 txn = (s3, none) →
        (p.Activate ops path policyData).2 = none
        ∧ (∀ k, (p.Activate ops path policyData).1.queryCache.cache k = none)
        ∧ (p.Activate ops path policyData).1.Ready = true)
    ∧ (∀ s1 txn e, ops.NewTransaction p.store = (s1, txn, some e) →
        (p.Activate ops path policyData).2 = some e
        ∧ (p.Activate ops path policyData).1.queryCache = p.queryCache
        ∧ (p.Activate ops path policyData).1.Ready = p.Ready)
    ∧ (∀ s1 txn s2 e, ops.NewTransaction p.store = (s1, txn, none) →
        ops.UpsertPolicy s1 txn path policyData = (s2, some e) →
        (p.Activate ops path policyData).2 = some e
        ∧ (p.Activate ops path policyData).1.queryCache = p.queryCache
        ∧ (p.Activate ops path policyData).1.Ready = p.Ready)
    ∧ (∀ s1 txn s2 s3 e, ops.NewTransaction p.store = (s1, txn, none) →
        ops.UpsertPolicy s1 txn path policyData = (s2, none) →
        ops.Commit s2 txn = (s3, some e) →
        (p.Activate ops path policyData).2 = some e
        ∧ (p.Activate ops path policyData).1.queryCache = p.queryCache
        ∧ (p.Activate ops path policyData).1.Ready = p.Ready)
    ∧ (∀ (config : PermitConfig) (p0 : PermitClient S Q) (calls : List (String × String)),
        New ops config = some (.ok p0) →
        (p0.Ready = false
          ∧ ((p0.activateAll ops calls).1.Ready = true
              ↔ none ∈ (p0.activateAll ops calls).2))) := by
  refine ⟨?_, ?_, ?_, ?_, ?_⟩
  · intro s1 txn s2 s3 h1 h2 h3
    simp [PermitClient.Activate, h1, h2, h3, PermitClient.Ready, queryCache.Clear]
  · intro s1 txn e h1
    simp [PermitClient.Activate, h1, PermitClient.Ready]
  · intro s1 txn s2 e h1 h2
    simp [PermitClient.Activate, h1, h2, PermitClient.Ready]
  · intro s1 txn s2 s3 e h1 h2 h3
    simp [PermitClient.Activate, h1, h2, h3, PermitClient.Ready]
  · intro config p0 calls hnew
    have hp0 : p0.Ready = false := by
      unfold New at hnew
      rcases hl : newLogger config.Logger with _ | (err | logger)
      · simp [hl] at hnew
      · simp [hl] at hnew
      · simp only [hl, Option.map_some', Option.some.injEq, Except.ok.injEq] at hnew
        rw [← hnew]
        rfl
    refine ⟨hp0, ?_⟩
    rw [activateAll_ready, hp0]
    simp

/-- C5, on a store whose commit fails: the error is returned and `Ready()` stays
false; and from the client `New` builds, one successful `Activate` makes
`Ready()` true. -/
theorem C5_activate_all_or_nothing_witness :
    ((sampleClient.Activate failingCommitStore "example" "package example").2
        = some "commit failed"
      ∧ (sampleClient.Activate failingCommitStore "example" "package example").1.Ready
        = sampleClient.Ready)
    ∧ (sampleClient.activateAll okStore [("example", "package example")]).1.Ready = true :=
  have h := (C5_activate_all_or_nothing failingCommitStore sampleClient "example"
    "package example").2.2.2.1 [] () [] [] "commit failed" rfl rfl rfl
  have hnew := (C5_activate_all_or_nothing okStore sampleClient "example"
    "package example").2.2.2.2 ⟨sampleConfig⟩ sampleClient [("example", "package example")] rfl
  ⟨⟨h.1, h.2.2⟩, hnew.2.mpr (by decide)⟩

/-! ## Theorems: policy updater -/

theorem walkFn_not_selected (bundles : List PolicyBundle) (e : WalkEntry)
    (h : selected e = false) : walkFn bundles e = (bundles, none) := by
  unfold walkFn
  unfold selected at h
  by_cases h1 : e.isRegular = true <;> by_cases h2 : e.walkErr = none <;>
    by_cases h3 : e.isDir = true <;>
    by_cases h4 : stringsHasSuffix e.fileName ".rego" = true <;>
    simp_all

theorem walkFn_selected (bundles : List PolicyBundle) (e : WalkEntry)
    (h : selected e = true) :
    walkFn bundles e = (bundles ++ [bundleOf e], none) ∨ ∃ err, walkFn bundles e = (bundles, some err) := by
  unfold walkFn
  unfold selected at h
  simp only [Bool.and_eq_true, beq_iff_eq, Bool.not_eq_true', Bool.not_eq_eq_eq_not] at h
  obtain ⟨⟨⟨h1, h2⟩, h3⟩, h4⟩ := h
  rcases ho : e.openErr with _ | oe
  · rcases hr : e.readErr with _ | re
    · left; simp [h1, h2, h3, h4, bundleOf]
    · right; simp [h1, h2, h3, h4]
  · right; simp [h1, h2, h3, h4]

theorem utilWalk_ok (es : List WalkEntry) :
    ∀ bundles out, utilWalk es bundles = (out, none) →
      out = bundles ++ (es.filter selected).map bundleOf := by
  induction es with
  | nil => intro bundles out h; simp [utilWalk] at h; simp [h]
  | cons e rest ih =>
    intro bundles out h
    unfold utilWalk at h
    by_cases hs : selected e = true
    · rcases walkFn_selected bundles e hs with hw | ⟨err, hw⟩
      · rw [hw] at h
        simp only at h
        rw [ih _ _ h]
        simp [hs]
      · rw [hw] at h
        simp at h
    · have hs1 : selected e = false := by simpa using hs
      rw [walkFn_not_selected bundles e hs1] at h
      simp only at h
      rw [ih _ _ h]
      simp [hs1]

theorem GenerateBundles_ok (b : PolicyUpdater) (env : Remote) (bundles : List PolicyBundle)
    (h : b.GenerateBundles env = (bundles, none)) :
    bundles = (env.walk.filter selected).map bundleOf := by
  unfold PolicyUpdater.GenerateBundles at h
  rcases hg : b.getGitRepo env with _ | e
  · rcases hw : env.worktreeErr with _ | e
    · rcases hu : utilWalk env.walk [] with ⟨out, _ | e⟩
      · simp only [hg, hw, hu, Prod.mk.injEq, and_true] at h
        have := utilWalk_ok env.walk [] out hu
        rw [← h, this]
        simp
      · simp [hg, hw, hu] at h
    · simp [hg, hw] at h
  · simp [hg] at h

/-- C6: with a live context, a successful head lookup and a head that differs
from the stored hash, `RunUpdate` advances the stored hash only if bundle
generation succeeds. On success the stored hash is the remote head, the stored
bundles are the generated ones, which are the bundles of the selected files in
walk order, the event handler is called exactly once, with those bundles, and
nil is returned; on failure the error is returned, the updater is unchanged and
the event handler is not called. -/
theorem C6_hash_advances_only_on_success (b : PolicyUpdater) (env : Remote) (head : String)
    (hhead : b.getGitRemoteHead env = (head, none)) (hne : b.project.Hash ≠ head) :
    (∀ bundles, b.GenerateBundles env = (bundles, none) →
        b.RunUpdate env none
          = ({ b with project := { b.project with Hash := head, PolicyBundles := bundles } },
              none, [Effect.generate, Effect.handler bundles])
        ∧ bundles = (env.walk.filter selected).map bundleOf)
    ∧ (∀ x err, b.GenerateBundles env = (x, some err) →
        b.RunUpdate env none = (b, some err, [Effect.generate])) := by
  constructor
  · intro bundles hg
    refine ⟨?_, GenerateBundles_ok b env bundles hg⟩
    simp [PolicyUpdater.RunUpdate, PolicyUpdater.CheckForUpdates, hhead, hne, hg]
  · intro x err hg
    simp [PolicyUpdater.RunUpdate, PolicyUpdater.CheckForUpdates, hhead, hne, hg]

/-- C6, from a fresh updater: a failing clone leaves the updater as it was. -/
theorem C6_hash_advances_only_on_success_witness :
    sampleUpdater.RunUpdate (failingCloneRemote "c0ffee") none
      = (sampleUpdater, some (errorsJoin "connection refused" "failed to clone"),
          [Effect.generate]) :=
  (C6_hash_advances_only_on_success sampleUpdater (failingCloneRemote "c0ffee") "c0ffee"
    (by decide) (by decide)).2 [] _ (by decide)

theorem getGitRemoteHead_project (b : PolicyUpdater) (env : Remote) (hash : String)
    (bundles : List PolicyBundle) :
    PolicyUpdater.getGitRemoteHead
        { b with project := { b.project with Hash := hash, PolicyBundles := bundles } } env
      = b.getGitRemoteHead env := rfl

/-- C7: when the stored hash equals the remote head, `RunUpdate` returns nil,
generates no bundles, does not call the event handler and leaves the updater
as it was; in particular, after a `RunUpdate` that generated bundles for head
`h`, a second `RunUpdate` that finds the same head `h` is such a no-op. -/
theorem C7_unchanged_head_is_noop (b : PolicyUpdater) (env : Remote) :
    (b.getGitRemoteHead env = (b.project.Hash, none) → b.RunUpdate env none = (b, none, []))
    ∧ (∀ (env2 : Remote) (h : String) (bundles : List PolicyBundle),
        b.getGitRemoteHead env = (h, none) → b.project.Hash ≠ h →
        b.GenerateBundles env = (bundles, none) →
        b.getGitRemoteHead env2 = (h, none) →
        (b.RunUpdate env none).2.1 = none
        ∧ (b.RunUpdate env none).1.project.Hash = h
        ∧ (b.RunUpdate env none).1.RunUpdate env2 none = ((b.RunUpdate env none).1, none, [])) := by
  have hnoop : ∀ (u : PolicyUpdater) (e : Remote),
      u.getGitRemoteHead e = (u.project.Hash, none) → u.RunUpdate e none = (u, none, []) := by
    intro u e hh
    simp [PolicyUpdater.RunUpdate, PolicyUpdater.CheckForUpdates, hh]
  refine ⟨hnoop b env, ?_⟩
  intro env2 h bundles hhead hne hg hhead2
  have hrun : b.RunUpdate env none
      = ({ b with project := { b.project with Hash := h, PolicyBundles := bundles } },
          none, [Effect.generate, Effect.handler bundles]) := by
    simp [PolicyUpdater.RunUpdate, PolicyUpdater.CheckForUpdates, hhead, hne, hg]
  rw [hrun]
  refine ⟨rfl, rfl, ?_⟩
  apply hnoop
  rw [getGitRemoteHead_project]
  exact hhead2

/-- C7, from a fresh updater: the second run against the same head does nothing. -/
theorem C7_unchanged_head_is_noop_witness :
    ((sampleUpdater.RunUpdate (okRemote "c0ffee" [regularFile "example.rego" [112]]) none).1.RunUpdate
        (okRemote "c0ffee" []) none).2 = (none, []) :=
  have h := (C7_unchanged_head_is_noop sampleUpdater
    (okRemote "c0ffee" [regularFile "example.rego" [112]])).2 (okRemote "c0ffee" []) "c0ffee"
    [⟨"example", [112]⟩] (by decide) (by decide) (by decide) (by decide)
  congrArg Prod.snd h.2.2

/-- C8: a policy file below a directory whose name contains `.rego` gets a
bundle name with the directory's `.rego` removed and its own extension kept:
`a.rego/b.rego` becomes `a/b.rego`, so that the name followed by `.rego` is not
the file path. A file whose path does not end in `.rego` yields no bundle. -/
theorem C8_first_occurrence_is_stripped :
    sampleUpdater.GenerateBundles (okRemote "c0ffee" [regularFile "a.rego/b.rego" [112]])
        = ([⟨"a/b.rego", [112]⟩], none)
    ∧ ("a/b.rego" ++ ".rego" ≠ "a.rego/b.rego")
    ∧ sampleUpdater.GenerateBundles (okRemote "c0ffee" [regularFile "README.md" [112]])
        = ([], none) := by
  decide

/-! ## Theorems: bundle names when the extension occurs once -/

theorem isPrefixOf_self {α : Type} [DecidableEq α] (l : List α) : l.isPrefixOf l = true := by
  induction l with
  | nil => rfl
  | cons a l ih => simp [List.isPrefixOf, ih]

theorem replaceFirst_strips_suffix {α : Type} [DecidableEq α] (old : List α) (hold : old ≠ []) :
    ∀ t : List α, (∀ w ∈ t.tails, w ≠ [] → old.isPrefixOf (w ++ old) = false) →
      replaceFirst old [] (t ++ old) = t := by
  intro t
  induction t with
  | nil =>
    intro _
    obtain ⟨c, cs, hc⟩ := List.exists_cons_of_ne_nil hold
    subst hc
    simp only [List.nil_append, replaceFirst, isPrefixOf_self, if_true, List.drop_length]
  | cons c cs ih =>
    intro h
    have h0 : old.isPrefixOf (c :: cs ++ old) = false := h (c :: cs) (by simp) (by simp)
    have hcs : ∀ w ∈ cs.tails, w ≠ [] → old.isPrefixOf (w ++ old) = false :=
      fun w hw hne => h w (by simp [List.tails, hw]) hne
    have h1 : old.isPrefixOf (c :: (cs ++ old)) = false := by simpa using h0
    show replaceFirst old [] (c :: (cs ++ old)) = c :: cs
    simp only [replaceFirst, h1, Bool.false_eq_true, if_false, ih hcs]

/-- Where the bundle name is the path without its extension: when the path is
`t` followed by `.rego` and `.rego` starts nowhere inside `t`, the bundle name
is `t`, so that the name followed by `.rego` is the path. -/
theorem bundle_name_when_extension_occurs_once (e : WalkEntry) (t : List Char)
    (hname : e.fileName.toList = t ++ ".rego".toList)
    (honce : ∀ w ∈ t.tails, w ≠ [] →
      (".rego".toList).isPrefixOf (w ++ ".rego".toList) = false) :
    (bundleOf e).Name = ⟨t⟩ ∧ (bundleOf e).Name ++ ".rego" = e.fileName := by
  have hn : (bundleOf e).Name = ⟨t⟩ := by
    simp only [bundleOf, stringsReplace1, hname]
    rw [show ("" : String).toList = [] from rfl,
      replaceFirst_strips_suffix ".rego".toList (by decide) t honce]
  refine ⟨hn, ?_⟩
  rw [hn]
  apply String.ext
  rw [String.data_append]
  exact hname.symm

/-- The statement above at the file `example/allow.rego`. -/
theorem bundle_name_when_extension_occurs_once_witness :
    (bundleOf (regularFile "example/allow.rego" [112])).Name = "example/allow" :=
  (bundle_name_when_extension_occurs_once (regularFile "example/allow.rego" [112])
    "example/allow".toList rfl (by decide)).1

/-! ## Theorems: upload cycle -/

theorem bufferChunk_unlimited (size : Chunk → Nat) (cur : logBuffer) (bs : Chunk)
    (h : cur.limit = 0) : bufferChunk size cur bs = ⟨0, cur.l ++ [bs]⟩ := by
  cases cur with
  | mk limit l =>
    simp only at h
    subst h
    simp [bufferChunk, logBuffer.Push]

theorem uploadLoop_nil (size : Chunk → Nat) (upload : Nat → Chunk → Option String)
    (lim : Int) (cur : logBuffer) (err : Option String) (attempts : List Attempt) :
    uploadLoop size upload ⟨lim, []⟩ cur err attempts = (cur, err, attempts) := by
  rw [uploadLoop]
  simp [logBuffer.Pop]

theorem uploadLoop_cons (size : Chunk → Nat) (upload : Nat → Chunk → Option String)
    (lim : Int) (c : Chunk) (cs : List Chunk) (cur : logBuffer) (err : Option String)
    (attempts : List Attempt) :
    uploadLoop size upload ⟨lim, c :: cs⟩ cur err attempts
      = uploadLoop size upload ⟨lim, cs⟩
          (if (if err = none then upload attempts.length c else err) ≠ none
            then bufferChunk size cur c else cur)
          (if err = none then upload attempts.length c else err)
          (if err = none then attempts ++ [(c, upload attempts.length c)] else attempts) := by
  rw [uploadLoop]
  simp only [logBuffer.Pop]
  by_cases h : err = none <;> simp [h]

theorem uploadLoop_failed (size : Chunk → Nat) (upload : Nat → Chunk → Option String)
    (lim : Int) (e : String) (attempts : List Attempt) (cs : List Chunk) :
    ∀ cur : logBuffer,
      (uploadLoop size upload ⟨lim, cs⟩ cur (some e) attempts).2 = (some e, attempts)
      ∧ (cur.limit = 0 →
          (uploadLoop size upload ⟨lim, cs⟩ cur (some e) attempts).1 = ⟨0, cur.l ++ cs⟩) := by
  induction cs with
  | nil =>
    intro cur
    rw [uploadLoop_nil]
    refine ⟨rfl, fun h => ?_⟩
    cases cur with
    | mk limit l => simp only at h; subst h; simp
  | cons c rest ih =>
    intro cur
    rw [uploadLoop_cons]
    simp only [reduceCtorEq, if_false, ne_eq, not_false_eq_true, if_true]
    refine ⟨(ih _).1, fun h => ?_⟩
    rw [(ih _).2 (by rw [bufferChunk_unlimited size cur c h]), bufferChunk_unlimited size cur c h]
    simp

theorem uploadLoop_all_ok (size : Chunk → Nat) (upload : Nat → Chunk → Option String)
    (lim : Int) (cur : logBuffer) (cs : List Chunk) :
    ∀ attempts : List Attempt,
      (∀ i c, cs[i]? = some c → upload (attempts.length + i) c = none) →
      uploadLoop size upload ⟨lim, cs⟩ cur none attempts
        = (cur, none, attempts ++ cs.map fun c => (c, none)) := by
  induction cs with
  | nil => intro attempts _; rw [uploadLoop_nil]; simp
  | cons c rest ih =>
    intro attempts h
    have h0 : upload attempts.length c = none := by simpa using h 0 c (by simp)
    rw [uploadLoop_cons]
    simp only [if_true, h0, ne_eq, not_true_eq_false, if_false]
    rw [ih]
    · simp
    · intro i d hd
      have := h (i + 1) d (by simpa using hd)
      simpa [Nat.add_assoc, Nat.add_comm 1 i] using this

theorem uploadLoop_first_failure (size : Chunk → Nat) (upload : Nat → Chunk → Option String)
    (lim : Int) (e : String) (cs : List Chunk) :
    ∀ (k : Nat) (ck : Chunk) (cur : logBuffer) (attempts : List Attempt),
      cs[k]? = some ck →
      (∀ i c, i < k → cs[i]? = some c → upload (attempts.length + i) c = none) →
      upload (attempts.length + k) ck = some e →
      (uploadLoop size upload ⟨lim, cs⟩ cur none attempts).2
          = (some e, attempts ++ ((cs.take k).map fun c => (c, none)) ++ [(ck, some e)])
      ∧ (cur.limit = 0 →
          (uploadLoop size upload ⟨lim, cs⟩ cur none attempts).1 = ⟨0, cur.l ++ cs.drop k⟩) := by
  induction cs with
  | nil => intro k ck cur attempts hk; simp at hk
  | cons c rest ih =>
    intro k ck cur attempts hk hbefore hfail
    rw [uploadLoop_cons]
    cases k with
    | zero =>
      simp only [List.getElem?_cons_zero, Option.some.injEq] at hk
      subst hk
      simp only [Nat.add_zero] at hfail
      simp only [if_true, hfail, ne_eq, reduceCtorEq, not_false_eq_true]
      have hf := uploadLoop_failed size upload lim e (attempts ++ [(c, some e)]) rest
        (bufferChunk size cur c)
      refine ⟨by rw [hf.1]; simp, fun h => ?_⟩
      rw [hf.2 (by rw [bufferChunk_unlimited size cur c h]), bufferChunk_unlimited size cur c h]
      simp
    | succ k =>
      have h0 : upload attempts.length c = none := by
        simpa using hbefore 0 c (Nat.succ_pos k) (by simp)
      simp only [if_true, h0, ne_eq, not_true_eq_false, if_false]
      have hk1 : rest[k]? = some ck := by simpa using hk
      have hb1 : ∀ i d, i < k → rest[i]? = some d →
          upload ((attempts ++ [(c, (none : Option String))]).length + i) d = none := by
        intro i d hi hd
        have := hbefore (i + 1) d (Nat.succ_lt_succ hi) (by simpa using hd)
        simpa [Nat.add_assoc, Nat.add_comm 1 i] using this
      have hf1 : upload ((attempts ++ [(c, (none : Option String))]).length + k) ck = some e := by
        simpa [Nat.add_assoc, Nat.add_comm 1 k] using hfail
      have := ih k ck cur (attempts ++ [(c, none)]) hk1 hb1 hf1
      refine ⟨by rw [this.1]; simp, fun h => ?_⟩
      rw [this.2 h]
      simp

theorem Flush_err (enc : chunkEncoder) : (enc.Flush).2.2 = none := by
  unfold chunkEncoder.Flush
  by_cases h : enc.bytesWritten = 0 <;> simp [h, chunkEncoder.writeClose]

theorem oneShot_eq (size : Chunk → Nat) (upload : Nat → Chunk → Option String)
    (l : decisionLogger) (bufferLimit chunkLimit : Int)
    (hb : l.config.BufferSizeLimitBytes = some bufferLimit)
    (hc : l.config.BufferChunkSizeBytes = some chunkLimit) :
    l.oneShot size upload
      = some (if (l.pending size).l = [] then
          ⟨{ l with buffer := newLogBuffer bufferLimit, enc := newChunkEncoder chunkLimit },
            false, none, []⟩
        else
          ⟨{ l with
              buffer := (uploadLoop size upload (l.pending size) (newLogBuffer bufferLimit) none []).1,
              enc := newChunkEncoder chunkLimit },
            (uploadLoop size upload (l.pending size) (newLogBuffer bufferLimit) none []).2.1 == none,
            (uploadLoop size upload (l.pending size) (newLogBuffer bufferLimit) none []).2.1,
            (uploadLoop size upload (l.pending size) (newLogBuffer bufferLimit) none []).2.2⟩) := by
  have hf := Flush_err l.enc
  rcases hfl : l.enc.Flush with ⟨enc1, chunk, err⟩
  rw [hfl] at hf
  simp only at hf
  subst hf
  simp only [decisionLogger.oneShot, hb, hc, hfl, decisionLogger.pending, logBuffer.Len,
    Option.bind_eq_bind, Option.some_bind, pure, List.length_eq_zero]
  split <;> rfl

theorem exists_first_failure (upload : Nat → Chunk → Option String) (cs : List Chunk)
    (h : ¬ ∀ i c, cs[i]? = some c → upload i c = none) :
    ∃ k ck e, cs[k]? = some ck
      ∧ (∀ i c, i < k → cs[i]? = some c → upload i c = none)
      ∧ upload k ck = some e := by
  classical
  have hex : ∃ k, ∃ c, cs[k]? = some c ∧ upload k c ≠ none := by
    by_contra hno
    apply h
    intro i c hi
    by_contra hu
    exact hno ⟨i, c, hi, hu⟩
  obtain ⟨ck, hck, hu⟩ := Nat.find_spec hex
  obtain ⟨e, he⟩ := Option.ne_none_iff_exists'.mp hu
  refine ⟨Nat.find hex, ck, e, hck, ?_, he⟩
  intro i c hi hc
  by_contra hne
  exact Nat.find_min hex hi ⟨c, hc, hne⟩

/-- C9: in one `oneShot` cycle over an unlimited buffer, with no `Log` call in
between, no chunk is lost or duplicated. With `c1..cn` the chunks of the old
buffer after the old encoder was flushed into it: if every upload succeeds,
`uploadChunk` is called exactly on `c1..cn` in that order and the new buffer is
empty afterwards; if `ck` is the first chunk whose upload fails, `uploadChunk`
is called exactly on `c1..ck` in order and the new buffer afterwards holds
exactly `ck..cn` in their original order. -/
theorem C9_cycle_keeps_every_chunk (size : Chunk → Nat) (upload : Nat → Chunk → Option String)
    (l : decisionLogger) (chunkLimit : Int)
    (hb : l.config.BufferSizeLimitBytes = some 0)
    (hc : l.config.BufferChunkSizeBytes = some chunkLimit) :
    ∃ r, l.oneShot size upload = some r
      ∧ ((∀ i c, (l.pending size).l[i]? = some c → upload i c = none) →
          r.attempts = (l.pending size).l.map (fun c => (c, none))
          ∧ r.logger.buffer.l = [])
      ∧ (∀ k ck e, (l.pending size).l[k]? = some ck →
          (∀ i c, i < k → (l.pending size).l[i]? = some c → upload i c = none) →
          upload k ck = some e →
          r.attempts = ((l.pending size).l.take k).map (fun c => (c, none)) ++ [(ck, some e)]
          ∧ r.logger.buffer.l = (l.pending size).l.drop k) := by
  refine ⟨_, oneShot_eq size upload l 0 chunkLimit hb hc, ?_, ?_⟩
  · intro hall
    by_cases hp : (l.pending size).l = []
    · simp [hp, newLogBuffer]
    · have h := uploadLoop_all_ok size upload (l.pending size).limit (newLogBuffer 0)
        (l.pending size).l [] (by simpa using hall)
      simp only [hp, if_false]
      rw [h]
      simp [newLogBuffer]
  · intro k ck e hk hbefore hfail
    have hp : (l.pending size).l ≠ [] := by
      intro hnil
      rw [hnil] at hk
      simp at hk
    have h := uploadLoop_first_failure size upload (l.pending size).limit e (l.pending size).l
      k ck (newLogBuffer 0) [] hk (by simpa using hbefore) (by simpa using hfail)
    simp only [hp, if_false]
    rw [h.1, h.2 rfl]
    simp [newLogBuffer]

/-- C9, on a buffer of two chunks with an endpoint that rejects the second
upload: the first chunk is uploaded, the second is tried and kept. -/
theorem C9_cycle_keeps_every_chunk_witness :
    ∃ r, twoChunkLogger.oneShot sampleSize failAfterFirst = some r
      ∧ r.attempts = [(⟨jsonArray [sampleEvent]⟩, none),
          (⟨jsonArray [sampleEvent, sampleEvent]⟩, some "log upload invalid status code: 503")]
      ∧ r.logger.buffer.l = [⟨jsonArray [sampleEvent, sampleEvent]⟩] := by
  obtain ⟨r, hr, _, h2⟩ := C9_cycle_keeps_every_chunk sampleSize failAfterFirst twoChunkLogger
    32768 rfl rfl
  have hp : (twoChunkLogger.pending sampleSize).l
      = [⟨jsonArray [sampleEvent]⟩, ⟨jsonArray [sampleEvent, sampleEvent]⟩] := by decide
  have h := h2 1 ⟨jsonArray [sampleEvent, sampleEvent]⟩ "log upload invalid status code: 503"
    (by rw [hp]; rfl)
    (by
      intro i c hi _
      have : i = 0 := by omega
      subst this
      rfl)
    rfl
  rw [hp] at h
  exact ⟨r, hr, h.1, h.2⟩

/-- C10, as the code has it: the boolean result of `oneShot` is true exactly
when the old buffer, after the flush, held at least one chunk and every upload
of the cycle succeeded; a cycle in which an earlier chunk was uploaded and a
later one failed returns false. The error result is the error of the first
failing upload, and nil if no upload failed. -/
theorem C10_ok_means_all_uploaded (size : Chunk → Nat) (upload : Nat → Chunk → Option String)
    (l : decisionLogger) (bufferLimit chunkLimit : Int)
    (hb : l.config.BufferSizeLimitBytes = some bufferLimit)
    (hc : l.config.BufferChunkSizeBytes = some chunkLimit) :
    ∃ r, l.oneShot size upload = some r
      ∧ (r.ok = true ↔
          ((l.pending size).l ≠ []
            ∧ ∀ i c, (l.pending size).l[i]? = some c → upload i c = none))
      ∧ ((∀ i c, (l.pending size).l[i]? = some c → upload i c = none) → r.err = none)
      ∧ (∀ k ck e, (l.pending size).l[k]? = some ck →
          (∀ i c, i < k → (l.pending size).l[i]? = some c → upload i c = none) →
          upload k ck = some e →
          r.err = some e ∧ r.ok = false) := by
  have hall : (∀ i c, (l.pending size).l[i]? = some c → upload i c = none) →
      (uploadLoop size upload (l.pending size) (newLogBuffer bufferLimit) none []).2.1 = none := by
    intro hall
    have h := uploadLoop_all_ok size upload (l.pending size).limit (newLogBuffer bufferLimit)
      (l.pending size).l [] (by simpa using hall)
    rw [h]
  have hfirst : ∀ k ck e, (l.pending size).l[k]? = some ck →
      (∀ i c, i < k → (l.pending size).l[i]? = some c → upload i c = none) →
      upload k ck = some e →
      (l.pending size).l ≠ []
      ∧ (uploadLoop size upload (l.pending size) (newLogBuffer bufferLimit) none []).2.1
          = some e := by
    intro k ck e hk hbefore hfail
    have hp : (l.pending size).l ≠ [] := by
      intro hnil
      rw [hnil] at hk
      simp at hk
    have h := uploadLoop_first_failure size upload (l.pending size).limit e (l.pending size).l
      k ck (newLogBuffer bufferLimit) [] hk (by simpa using hbefore) (by simpa using hfail)
    refine ⟨hp, ?_⟩
    rw [h.1]
  refine ⟨_, oneShot_eq size upload l bufferLimit chunkLimit hb hc, ?_, ?_, ?_⟩
  · by_cases hp : (l.pending size).l = []
    · simp [hp]
    · simp only [hp, if_false, ne_eq, not_false_eq_true, true_and]
      constructor
      · intro hok
        by_contra hno
        obtain ⟨k, ck, e, hk, hbefore, hfail⟩ := exists_first_failure upload _ hno
        rw [(hfirst k ck e hk hbefore hfail).2] at hok
        simp at hok
      · intro h
        rw [hall h]
        rfl
  · intro h
    by_cases hp : (l.pending size).l = []
    · simp [hp]
    · simp only [hp, if_false]
      exact hall h
  · intro k ck e hk hbefore hfail
    obtain ⟨hp, he⟩ := hfirst k ck e hk hbefore hfail
    simp [hp, he]

/-- C10 as amended, on a buffer of two chunks with an endpoint that accepts
every upload: the cycle reports true and no error. -/
theorem C10_ok_means_all_uploaded_witness :
    ∃ r, twoChunkLogger.oneShot sampleSize acceptAll = some r ∧ r.ok = true ∧ r.err = none := by
  obtain ⟨r, hr, hok, herr, _⟩ := C10_ok_means_all_uploaded sampleSize acceptAll twoChunkLogger
    0 32768 rfl rfl
  exact ⟨r, hr, hok.mpr ⟨by decide, fun _ _ _ => rfl⟩, herr (fun _ _ _ => rfl)⟩

/-- C10 as stated fails: with two chunks, the first uploaded and the second
rejected, a chunk was uploaded in the cycle and yet `oneShot` returns false. -/
theorem C10_partial_upload_reports_false :
    ∃ r, twoChunkLogger.oneShot sampleSize failAfterFirst = some r
      ∧ (∃ a ∈ r.attempts, a.2 = none)
      ∧ r.ok = false
      ∧ ¬ (r.ok = true ↔ ∃ a ∈ r.attempts, a.2 = none) := by
  have hp : (twoChunkLogger.pending sampleSize).l
      = [⟨jsonArray [sampleEvent]⟩, ⟨jsonArray [sampleEvent, sampleEvent]⟩] := by decide
  have hne : (twoChunkLogger.pending sampleSize).l ≠ [] := by rw [hp]; simp
  have hloop := uploadLoop_first_failure sampleSize failAfterFirst
    (twoChunkLogger.pending sampleSize).limit "log upload invalid status code: 503"
    (twoChunkLogger.pending sampleSize).l 1 ⟨jsonArray [sampleEvent, sampleEvent]⟩
    (newLogBuffer 0) [] (by rw [hp]; rfl)
    (by
      intro i c hi _
      have : i = 0 := by omega
      subst this
      rfl)
    rfl
  refine ⟨_, oneShot_eq sampleSize failAfterFirst twoChunkLogger 0 32768 rfl rfl, ?_⟩
  simp only [hne, if_false]
  rw [hloop.1, hp]
  refine ⟨⟨(⟨jsonArray [sampleEvent]⟩, none), by simp, rfl⟩, rfl, ?_⟩
  intro h
  have : (false = true) := h.mpr ⟨(⟨jsonArray [sampleEvent]⟩, none), by simp, rfl⟩
  exact Bool.false_ne_true this

/-! ## Theorems: backoff -/

theorem truncDuration_of_nonneg (x : ℚ) (h : 0 ≤ x) : truncDuration x = ⌊x⌋ := by
  simp [truncDuration, h]

theorem backoffCapped_le (base max factor : ℚ) (retries : Int) :
    backoffCapped base max factor retries ≤ max := by
  unfold backoffCapped
  by_cases h : backoffLoop max factor retries.toNat base > max
  · simp [h]
  · simp only [h, if_false]
    exact not_lt.mp h

theorem Backoff_le_jittered (base max jitter factor : ℚ) (retries : Int) (rand : ℚ)
    (hmax : 0 ≤ max) (hj : 0 ≤ 1 + jitter * (rand * 2 - 1)) :
    ((Backoff base max jitter factor retries rand : Int) : ℚ)
      ≤ max * (1 + jitter * (rand * 2 - 1)) := by
  have hbound : 0 ≤ max * (1 + jitter * (rand * 2 - 1)) := mul_nonneg hmax hj
  unfold Backoff
  by_cases h0 : retries = 0
  · simp only [h0, if_true]
    exact_mod_cast hbound
  · simp only [h0, if_false]
    by_cases hneg : backoffCapped base max factor retries * (1 + jitter * (rand * 2 - 1)) < 0
    · simp only [hneg, if_true]
      exact_mod_cast hbound
    · simp only [hneg, if_false]
      have hnn : 0 ≤ backoffCapped base max factor retries * (1 + jitter * (rand * 2 - 1)) :=
        not_lt.mp hneg
      rw [truncDuration_of_nonneg _ hnn]
      have hfl := Int.floor_le (backoffCapped base max factor retries * (1 + jitter * (rand * 2 - 1)))
      have hc := backoffCapped_le base max factor retries
      have h1 : backoffCapped base max factor retries * (1 + jitter * (rand * 2 - 1))
          ≤ max * (1 + jitter * (rand * 2 - 1)) := mul_le_mul_of_nonneg_right hc hj
      linarith

/-- C11, as the code has it: for every base delay > 0, every `maxDelay >= base`,
every retry count and every jitter draw `r` in `[0,1)`, the backoff is capped
at `maxDelay` before the jitter is applied; the delay `DefaultBackoff` returns
is below 1.2 times `maxDelay`, and at most `maxDelay` when `r` is at most 0.5. -/
theorem C11_backoff_capped_before_jitter (base max : ℚ) (n : Int) (r : ℚ)
    (hbase : 0 < base) (hmax : base ≤ max) (hr0 : 0 ≤ r) (hr1 : r < 1) :
    backoffCapped base max (16 / 10) n ≤ max
    ∧ ((DefaultBackoff base max n r : Int) : ℚ) < (12 / 10) * max
    ∧ (r ≤ 1 / 2 → ((DefaultBackoff base max n r : Int) : ℚ) ≤ max) := by
  have hpos : 0 < max := lt_of_lt_of_le hbase hmax
  have h := Backoff_le_jittered base max (2 / 10) (16 / 10) n r hpos.le (by linarith)
  refine ⟨backoffCapped_le base max _ n, ?_, ?_⟩
  · unfold DefaultBackoff
    nlinarith
  · intro hhalf
    unfold DefaultBackoff
    nlinarith

/-- C11 as amended, at base 100ms, `maxDelay` 2s, retry count 10 and draw 0.9. -/
theorem C11_backoff_capped_before_jitter_witness :
    ((DefaultBackoff 100000000 2000000000 10 (9 / 10) : Int) : ℚ) < (12 / 10) * 2000000000 :=
  (C11_backoff_capped_before_jitter 100000000 2000000000 10 (9 / 10) (by norm_num)
    (by norm_num) (by norm_num) (by norm_num)).2.1

/-- C11 as stated fails: with base 100ms, `maxDelay` 2s, retry count 10 and
jitter draw 0.9 the delay is 2.32s, above `maxDelay`. -/
theorem C11_jitter_exceeds_cap :
    (0 : ℚ) < 100000000 ∧ (100000000 : ℚ) ≤ 2000000000 ∧ (0 : ℚ) ≤ 9 / 10 ∧ (9 / 10 : ℚ) < 1
    ∧ DefaultBackoff 100000000 2000000000 10 (9 / 10) = 2320000000
    ∧ ¬ (((DefaultBackoff 100000000 2000000000 10 (9 / 10) : Int) : ℚ) ≤ 2000000000) := by
  have h : DefaultBackoff 100000000 2000000000 10 (9 / 10) = 2320000000 := by
    simp [DefaultBackoff, Backoff, backoffCapped, backoffLoop, truncDuration]
    norm_num
  rw [h]
  norm_num

/-! ## Theorems: binary64 rounding -/

theorem roundHalfEven_cases (y : ℚ) :
    (roundHalfEven y = ⌊y⌋ ∧ y - ⌊y⌋ ≤ 1 / 2) ∨ (roundHalfEven y = ⌊y⌋ + 1 ∧ 1 / 2 ≤ y - ⌊y⌋) := by
  unfold roundHalfEven
  by_cases h1 : y - ⌊y⌋ < 1 / 2
  · left; rw [if_pos h1]; exact ⟨rfl, h1.le⟩
  · rw [if_neg h1]
    by_cases h2 : 1 / 2 < y - ⌊y⌋
    · right; rw [if_pos h2]; exact ⟨rfl, h2.le⟩
    · rw [if_neg h2]
      have heq : y - ⌊y⌋ = 1 / 2 := le_antisymm (not_lt.mp h2) (not_lt.mp h1)
      by_cases h3 : ⌊y⌋ % 2 = 0
      · left; rw [if_pos h3]; exact ⟨rfl, heq.le⟩
      · right; rw [if_neg h3]; exact ⟨rfl, heq.ge⟩

theorem roundHalfEven_near (y : ℚ) : |(roundHalfEven y : ℚ) - y| ≤ 1 / 2 := by
  have h0 := Int.floor_le y
  have h1 := Int.lt_floor_add_one y
  rw [abs_le]
  rcases roundHalfEven_cases y with ⟨h, hf⟩ | ⟨h, hf⟩
  · rw [h]; constructor <;> linarith
  · rw [h]; push_cast; constructor <;> linarith

theorem roundHalfEven_mono {y z : ℚ} (h : y ≤ z) : roundHalfEven y ≤ roundHalfEven z := by
  have hfl : ⌊y⌋ ≤ ⌊z⌋ := Int.floor_le_floor h
  rcases lt_or_eq_of_le hfl with hlt | heq
  · have hy : roundHalfEven y ≤ ⌊y⌋ + 1 := by
      rcases roundHalfEven_cases y with ⟨h1, _⟩ | ⟨h1, _⟩ <;> omega
    have hz : ⌊z⌋ ≤ roundHalfEven z := by
      rcases roundHalfEven_cases z with ⟨h1, _⟩ | ⟨h1, _⟩ <;> omega
    omega
  · by_cases hy1 : y - ⌊y⌋ < 1 / 2
    · have hy : roundHalfEven y = ⌊y⌋ := by unfold roundHalfEven; rw [if_pos hy1]
      have hz : ⌊z⌋ ≤ roundHalfEven z := by
        rcases roundHalfEven_cases z with ⟨h1, _⟩ | ⟨h1, _⟩ <;> omega
      omega
    · by_cases hy2 : 1 / 2 < y - ⌊y⌋
      · have hz2 : 1 / 2 < z - ⌊z⌋ := by rw [← heq]; linarith
        have hz1 : ¬ (z - ⌊z⌋ < 1 / 2) := by linarith
        have hy : roundHalfEven y = ⌊y⌋ + 1 := by
          unfold roundHalfEven; rw [if_neg hy1, if_pos hy2]
        have hz : roundHalfEven z = ⌊z⌋ + 1 := by
          unfold roundHalfEven; rw [if_neg hz1, if_pos hz2]
        omega
      · have hz1 : ¬ (z - ⌊z⌋ < 1 / 2) := by rw [← heq]; linarith
        by_cases hz2 : 1 / 2 < z - ⌊z⌋
        · have hz : roundHalfEven z = ⌊z⌋ + 1 := by
            unfold roundHalfEven; rw [if_neg hz1, if_pos hz2]
          have hy : roundHalfEven y ≤ ⌊y⌋ + 1 := by
            rcases roundHalfEven_cases y with ⟨h1, _⟩ | ⟨h1, _⟩ <;> omega
          omega
        · have hy : roundHalfEven y = if ⌊y⌋ % 2 = 0 then ⌊y⌋ else ⌊y⌋ + 1 := by
            unfold roundHalfEven; rw [if_neg hy1, if_neg hy2]
          have hz : roundHalfEven z = if ⌊z⌋ % 2 = 0 then ⌊z⌋ else ⌊z⌋ + 1 := by
            unfold roundHalfEven; rw [if_neg hz1, if_neg hz2]
          rw [hy, hz, heq]

theorem roundHalfEven_intCast (n : Int) : roundHalfEven (n : ℚ) = n := by
  unfold roundHalfEven
  have : ((n : ℚ) - ((⌊(n : ℚ)⌋ : Int) : ℚ)) = 0 := by simp
  rw [this, if_pos (by norm_num)]
  simp

theorem ulpExp_pos (x : ℚ) : (0 : ℚ) < 2 ^ ulpExp x := zpow_pos (by norm_num) _

theorem ulpExp_lt (x : ℚ) : |x| < 2 ^ (ulpExp x + 53) := by
  have h1 : |x| < (2 : ℚ) ^ (Int.log 2 |x| + 1) := by
    have := Int.lt_zpow_succ_log_self (b := 2) (by norm_num) |x|
    exact_mod_cast this
  have h2 : Int.log 2 |x| + 1 ≤ ulpExp x + 53 := by
    unfold ulpExp
    have := le_max_left (Int.log 2 |x| - 52) (-1074)
    omega
  exact lt_of_lt_of_le h1 (zpow_le_zpow_right₀ (by norm_num) h2)

theorem ulpExp_le (x : ℚ) (hx : x ≠ 0) (h : -1074 < ulpExp x) : 2 ^ (ulpExp x + 52) ≤ |x| := by
  have hlog : ulpExp x = Int.log 2 |x| - 52 := by
    unfold ulpExp at h ⊢
    rcases max_cases (Int.log 2 |x| - 52) (-1074) with ⟨h1, _⟩ | ⟨h1, _⟩
    · exact h1
    · rw [h1] at h; exact absurd h (lt_irrefl _)
  have h1 : (2 : ℚ) ^ Int.log 2 |x| ≤ |x| := by
    have := Int.zpow_log_le_self (b := 2) (by norm_num) (abs_pos.mpr hx)
    exact_mod_cast this
  rw [hlog]
  simpa using h1

theorem ulpExp_mono {x y : ℚ} (hx : 0 < x) (h : x ≤ y) : ulpExp x ≤ ulpExp y := by
  have hy : 0 < y := lt_of_lt_of_le hx h
  unfold ulpExp
  rw [abs_of_pos hx, abs_of_pos hy]
  have := Int.log_mono_right (b := 2) hx h
  exact max_le_max (by omega) (le_refl _)

theorem fl64_near (x : ℚ) : |fl64 x - x| ≤ 2 ^ ulpExp x / 2 := by
  have hp := ulpExp_pos x
  have h := roundHalfEven_near (x / 2 ^ ulpExp x)
  have hx : x = x / 2 ^ ulpExp x * 2 ^ ulpExp x := by field_simp
  have : fl64 x - x
      = ((roundHalfEven (x / 2 ^ ulpExp x) : ℚ) - x / 2 ^ ulpExp x) * 2 ^ ulpExp x := by
    unfold fl64
    rw [sub_mul, ← hx]
  rw [this, abs_mul, abs_of_pos hp]
  calc |(roundHalfEven (x / 2 ^ ulpExp x) : ℚ) - x / 2 ^ ulpExp x| * 2 ^ ulpExp x
      ≤ 1 / 2 * 2 ^ ulpExp x := mul_le_mul_of_nonneg_right h hp.le
    _ = 2 ^ ulpExp x / 2 := by ring

theorem fl64_zero : fl64 0 = 0 := by
  unfold fl64
  rw [zero_div]
  have := roundHalfEven_intCast 0
  simp only [Int.cast_zero] at this
  rw [this]
  simp

theorem fl64_err (x : ℚ) : |fl64 x - x| ≤ |x| / 2 ^ 53 + 1 / 2 ^ 1075 := by
  by_cases hx : x = 0
  · subst hx
    rw [fl64_zero]
    simp
  have h := fl64_near x
  by_cases hc : -1074 < ulpExp x
  · have h1 := ulpExp_le x hx hc
    have h2 : (2 : ℚ) ^ ulpExp x / 2 = 2 ^ (ulpExp x + 52) / 2 ^ 53 := by
      rw [zpow_add₀ (by norm_num)]
      norm_num
      ring
    rw [h2] at h
    have h3 : (2 : ℚ) ^ (ulpExp x + 52) / 2 ^ 53 ≤ |x| / 2 ^ 53 :=
      div_le_div_of_nonneg_right h1 (by positivity)
    have : (0 : ℚ) ≤ 1 / 2 ^ 1075 := by positivity
    linarith
  · have he : ulpExp x = -1074 := by
      have : -1074 ≤ ulpExp x := le_max_right _ _
      omega
    rw [he] at h
    have h2 : (2 : ℚ) ^ (-1074 : Int) / 2 = 1 / 2 ^ 1075 := by
      rw [zpow_neg]
      norm_num
    rw [h2] at h
    have : (0 : ℚ) ≤ |x| / 2 ^ 53 := by positivity
    linarith

theorem fl64_rel (x : ℚ) (hx : 1 / 2 ^ 1022 ≤ |x|) : |fl64 x - x| ≤ |x| / 2 ^ 53 := by
  have hx0 : x ≠ 0 := by
    intro h
    rw [h] at hx
    simp at hx
    have : (0 : ℚ) < (2 ^ 1022)⁻¹ := by positivity
    linarith
  have h := fl64_near x
  by_cases hc : -1074 < ulpExp x
  · have h1 := ulpExp_le x hx0 hc
    have h2 : (2 : ℚ) ^ ulpExp x / 2 = 2 ^ (ulpExp x + 52) / 2 ^ 53 := by
      rw [zpow_add₀ (by norm_num)]
      norm_num
      ring
    rw [h2] at h
    exact le_trans h (div_le_div_of_nonneg_right h1 (by positivity))
  · have he : ulpExp x = -1074 := by
      have : -1074 ≤ ulpExp x := le_max_right _ _
      omega
    rw [he] at h
    have h2 : (2 : ℚ) ^ (-1074 : Int) / 2 = (1 / 2 ^ 1022) / 2 ^ 53 := by
      rw [zpow_neg]
      norm_num
    rw [h2] at h
    exact le_trans h (div_le_div_of_nonneg_right hx (by positivity))

theorem fl64_nonneg {x : ℚ} (hx : 0 ≤ x) : 0 ≤ fl64 x := by
  unfold fl64
  have h0 : (0 : ℚ) ≤ x / 2 ^ ulpExp x := div_nonneg hx (ulpExp_pos x).le
  have h1 := roundHalfEven_mono h0
  have h2 := roundHalfEven_intCast 0
  simp only [Int.cast_zero] at h2
  rw [h2] at h1
  have : (0 : ℚ) ≤ (roundHalfEven (x / 2 ^ ulpExp x) : ℚ) := by exact_mod_cast h1
  exact mul_nonneg this (ulpExp_pos x).le

theorem fl64_mono_nonneg {x y : ℚ} (hx : 0 ≤ x) (h : x ≤ y) : fl64 x ≤ fl64 y := by
  rcases eq_or_lt_of_le hx with h0 | hpos
  · rw [← h0, fl64_zero]
    exact fl64_nonneg (le_trans hx h)
  have hy : 0 < y := lt_of_lt_of_le hpos h
  have he := ulpExp_mono hpos h
  rcases eq_or_lt_of_le he with heq | hlt
  · unfold fl64
    rw [heq]
    have hd : x / 2 ^ ulpExp y ≤ y / 2 ^ ulpExp y :=
      div_le_div_of_nonneg_right h (ulpExp_pos y).le
    have := roundHalfEven_mono hd
    have hc : (roundHalfEven (x / 2 ^ ulpExp y) : ℚ) ≤ (roundHalfEven (y / 2 ^ ulpExp y) : ℚ) := by
      exact_mod_cast this
    exact mul_le_mul_of_nonneg_right hc (ulpExp_pos y).le
  · -- the binade of `x` lies below that of `y`
    have hxlt := ulpExp_lt x
    rw [abs_of_pos hpos] at hxlt
    have hx53 : x / 2 ^ ulpExp x ≤ ((2 ^ 53 : Int) : ℚ) := by
      rw [div_le_iff₀ (ulpExp_pos x)]
      rw [zpow_add₀ (by norm_num)] at hxlt
      push_cast
      have : (2 : ℚ) ^ (53 : Int) = 2 ^ 53 := by norm_num
      rw [this] at hxlt
      linarith
    have hrx := roundHalfEven_mono hx53
    rw [roundHalfEven_intCast] at hrx
    have hflx : fl64 x ≤ 2 ^ 53 * 2 ^ ulpExp x := by
      unfold fl64
      have : (roundHalfEven (x / 2 ^ ulpExp x) : ℚ) ≤ 2 ^ 53 := by exact_mod_cast hrx
      exact mul_le_mul_of_nonneg_right this (ulpExp_pos x).le
    have hyc : -1074 < ulpExp y := by
      have : -1074 ≤ ulpExp x := le_max_right _ _
      omega
    have hyle := ulpExp_le y hy.ne' hyc
    rw [abs_of_pos hy] at hyle
    have hy52 : ((2 ^ 52 : Int) : ℚ) ≤ y / 2 ^ ulpExp y := by
      rw [le_div_iff₀ (ulpExp_pos y)]
      rw [zpow_add₀ (by norm_num)] at hyle
      push_cast
      have : (2 : ℚ) ^ (52 : Int) = 2 ^ 52 := by norm_num
      rw [this] at hyle
      linarith
    have hry := roundHalfEven_mono hy52
    rw [roundHalfEven_intCast] at hry
    have hfly : 2 ^ 52 * 2 ^ ulpExp y ≤ fl64 y := by
      unfold fl64
      have : (2 : ℚ) ^ 52 ≤ (roundHalfEven (y / 2 ^ ulpExp y) : ℚ) := by exact_mod_cast hry
      exact mul_le_mul_of_nonneg_right this (ulpExp_pos y).le
    have hstep : (2 : ℚ) ^ 53 * 2 ^ ulpExp x ≤ 2 ^ 52 * 2 ^ ulpExp y := by
      have h1 : (2 : ℚ) ^ (ulpExp x + 1) ≤ 2 ^ ulpExp y :=
        zpow_le_zpow_right₀ (by norm_num) (by omega)
      rw [zpow_add₀ (by norm_num)] at h1
      have : (2 : ℚ) ^ (1 : Int) = 2 := by norm_num
      rw [this] at h1
      nlinarith [ulpExp_pos x]
    linarith

theorem fl64_intCast (n : Int) (h0 : 0 ≤ n) (h1 : n < 2 ^ 53) : fl64 (n : ℚ) = n := by
  rcases eq_or_lt_of_le h0 with hz | hpos
  · rw [← hz]; simpa using fl64_zero
  have hq : (0 : ℚ) < (n : ℚ) := by exact_mod_cast hpos
  -- the unit in the last place is at most 1
  have he : ulpExp (n : ℚ) ≤ 0 := by
    unfold ulpExp
    rw [abs_of_pos hq]
    have hlog : Int.log 2 (n : ℚ) < 53 := by
      rw [← Int.lt_zpow_iff_log_lt (by norm_num) hq]
      have : ((n : Int) : ℚ) < 2 ^ 53 := by exact_mod_cast h1
      have h2 : (2 : ℚ) ^ (53 : Int) = 2 ^ 53 := by norm_num
      push_cast
      rw [h2]
      exact this
    exact max_le (by omega) (by norm_num)
  obtain ⟨k, hk⟩ : ∃ k : Nat, ulpExp (n : ℚ) = -(k : Int) := ⟨(-ulpExp (n : ℚ)).toNat, by omega⟩
  have hdiv : (n : ℚ) / 2 ^ ulpExp (n : ℚ) = ((n * 2 ^ k : Int) : ℚ) := by
    rw [hk, zpow_neg, zpow_natCast]
    push_cast
    field_simp
  unfold fl64
  rw [hdiv, roundHalfEven_intCast, hk, zpow_neg, zpow_natCast]
  push_cast
  field_simp

theorem fl64_close (x : ℚ) (h : |x| ≤ 2) : |fl64 x - x| ≤ 1 / 10 ^ 6 := by
  have h1 := fl64_err x
  have h2 : |x| / 2 ^ 53 ≤ 2 / 2 ^ 53 := div_le_div_of_nonneg_right h (by positivity)
  have h3 : (2 : ℚ) / 2 ^ 53 + 1 / 2 ^ 1075 ≤ 1 / 10 ^ 6 := by norm_num
  linarith

/-! ## Theorems: backoff in binary64 -/

theorem jitterFactor64_bounds (r : ℚ) (hr0 : 0 ≤ r) (hr1 : r < 1) :
    8 / 10 - 1 / 10 ^ 5 ≤ jitterFactor64 (fl64 (2 / 10)) r
    ∧ jitterFactor64 (fl64 (2 / 10)) r ≤ 12 / 10 + 1 / 10 ^ 5 := by
  unfold jitterFactor64
  -- rand * 2
  have h1 := abs_le.mp (fl64_close (r * 2) (by rw [abs_le]; constructor <;> linarith))
  -- ... - 1
  have h2 := abs_le.mp (fl64_close (fl64 (r * 2) - 1) (by
    rw [abs_le]; constructor <;> linarith [h1.1, h1.2]))
  -- the constant .2
  have hj := abs_le.mp (fl64_close (2 / 10) (by rw [abs_le]; constructor <;> norm_num))
  have hj0 : 0 ≤ fl64 (2 / 10) := fl64_nonneg (by norm_num)
  -- jitter * (...)
  have ht2 : |fl64 (fl64 (r * 2) - 1)| ≤ 1 + 3 / 10 ^ 6 := by
    rw [abs_le]; constructor <;> linarith [h1.1, h1.2, h2.1, h2.2]
  have hprod : |fl64 (2 / 10) * fl64 (fl64 (r * 2) - 1)| ≤ 2 / 10 + 2 / 10 ^ 6 := by
    rw [abs_mul, abs_of_nonneg hj0]
    calc fl64 (2 / 10) * |fl64 (fl64 (r * 2) - 1)|
        ≤ (2 / 10 + 1 / 10 ^ 6) * (1 + 3 / 10 ^ 6) :=
          mul_le_mul (by linarith [hj.2]) ht2 (abs_nonneg _) (by norm_num)
      _ ≤ 2 / 10 + 2 / 10 ^ 6 := by norm_num
  have h3 := abs_le.mp (fl64_close (fl64 (2 / 10) * fl64 (fl64 (r * 2) - 1)) (by
    linarith [hprod]))
  have hp := abs_le.mp hprod
  -- 1 + ...
  have h4 := abs_le.mp (fl64_close (1 + fl64 (fl64 (2 / 10) * fl64 (fl64 (r * 2) - 1))) (by
    rw [abs_le]; constructor <;> linarith [h3.1, h3.2, hp.1, hp.2]))
  constructor <;> linarith [h3.1, h3.2, hp.1, hp.2, h4.1, h4.2]

theorem factor64_bounds :
    16 / 10 * (1 - 1 / 2 ^ 53) ≤ fl64 (16 / 10) ∧ fl64 (16 / 10) ≤ 16 / 10 * (1 + 1 / 2 ^ 53) := by
  have h := fl64_rel (16 / 10) (by rw [abs_of_pos (by norm_num)]; norm_num)
  rw [abs_of_pos (by norm_num : (0 : ℚ) < 16 / 10)] at h
  have := abs_le.mp h
  constructor <;> linarith [this.1, this.2]

theorem backoffLoop64_bounds (max F : ℚ)
    (hF0 : 16 / 10 * (1 - 1 / 2 ^ 53) ≤ F) (hF1 : F ≤ 16 / 10 * (1 + 1 / 2 ^ 53)) :
    ∀ (k : Nat) (b : ℚ), 1 / 2 ^ 1022 ≤ b →
      (∀ i, i < k → b * (16 / 10 * (1 + 1 / 2 ^ 53) ^ 2) ^ i < max) →
      b * (16 / 10 * (1 - 1 / 2 ^ 53) ^ 2) ^ k ≤ backoffLoop64 max F k b
      ∧ backoffLoop64 max F k b ≤ b * (16 / 10 * (1 + 1 / 2 ^ 53) ^ 2) ^ k := by
  intro k
  induction k with
  | zero => intro b _ _; simp [backoffLoop64]
  | succ k ih =>
    intro b hb hlt
    have hbpos : 0 < b := lt_of_lt_of_le (by positivity) hb
    have hb0 : b < max := by simpa using hlt 0 (Nat.succ_pos k)
    have hFpos : 0 < F := lt_of_lt_of_le (by norm_num) hF0
    have hbF : b ≤ b * F := by
      have : (1 : ℚ) ≤ F := le_trans (by norm_num) hF0
      nlinarith
    have hrel := fl64_rel (b * F) (by
      rw [abs_of_pos (mul_pos hbpos hFpos)]; linarith)
    rw [abs_of_pos (mul_pos hbpos hFpos)] at hrel
    have hr := abs_le.mp hrel
    have hlo : b * (16 / 10 * (1 - 1 / 2 ^ 53) ^ 2) ≤ fl64 (b * F) := by
      have h1 : b * F * (1 - 1 / 2 ^ 53) ≤ fl64 (b * F) := by linarith [hr.1]
      have h2 : b * (16 / 10 * (1 - 1 / 2 ^ 53)) * (1 - 1 / 2 ^ 53) ≤ b * F * (1 - 1 / 2 ^ 53) :=
        mul_le_mul_of_nonneg_right (mul_le_mul_of_nonneg_left hF0 hbpos.le) (by norm_num)
      calc b * (16 / 10 * (1 - 1 / 2 ^ 53) ^ 2)
          = b * (16 / 10 * (1 - 1 / 2 ^ 53)) * (1 - 1 / 2 ^ 53) := by ring
        _ ≤ b * F * (1 - 1 / 2 ^ 53) := h2
        _ ≤ fl64 (b * F) := h1
    have hhi : fl64 (b * F) ≤ b * (16 / 10 * (1 + 1 / 2 ^ 53) ^ 2) := by
      have h1 : fl64 (b * F) ≤ b * F * (1 + 1 / 2 ^ 53) := by linarith [hr.2]
      have h2 : b * F * (1 + 1 / 2 ^ 53) ≤ b * (16 / 10 * (1 + 1 / 2 ^ 53)) * (1 + 1 / 2 ^ 53) :=
        mul_le_mul_of_nonneg_right (mul_le_mul_of_nonneg_left hF1 hbpos.le) (by norm_num)
      calc fl64 (b * F) ≤ b * F * (1 + 1 / 2 ^ 53) := h1
        _ ≤ b * (16 / 10 * (1 + 1 / 2 ^ 53)) * (1 + 1 / 2 ^ 53) := h2
        _ = b * (16 / 10 * (1 + 1 / 2 ^ 53) ^ 2) := by ring
    have hG0 : (1 : ℚ) ≤ 16 / 10 * (1 - 1 / 2 ^ 53) ^ 2 := by norm_num
    have hb' : 1 / 2 ^ 1022 ≤ fl64 (b * F) := by
      have : b ≤ b * (16 / 10 * (1 - 1 / 2 ^ 53) ^ 2) := by nlinarith
      linarith
    have hpos' : 0 < fl64 (b * F) := lt_of_lt_of_le (by positivity) hb'
    have hlt' : ∀ i, i < k → fl64 (b * F) * (16 / 10 * (1 + 1 / 2 ^ 53) ^ 2) ^ i < max := by
      intro i hi
      have h1 := hlt (i + 1) (Nat.succ_lt_succ hi)
      have hpw : (0 : ℚ) ≤ (16 / 10 * (1 + 1 / 2 ^ 53) ^ 2) ^ i := by positivity
      calc fl64 (b * F) * (16 / 10 * (1 + 1 / 2 ^ 53) ^ 2) ^ i
          ≤ b * (16 / 10 * (1 + 1 / 2 ^ 53) ^ 2) * (16 / 10 * (1 + 1 / 2 ^ 53) ^ 2) ^ i :=
            mul_le_mul_of_nonneg_right hhi hpw
        _ = b * (16 / 10 * (1 + 1 / 2 ^ 53) ^ 2) ^ (i + 1) := by ring
        _ < max := h1
    obtain ⟨ih0, ih1⟩ := ih (fl64 (b * F)) hb' hlt'
    simp only [backoffLoop64, hb0, if_true]
    constructor
    · calc b * (16 / 10 * (1 - 1 / 2 ^ 53) ^ 2) ^ (k + 1)
          = b * (16 / 10 * (1 - 1 / 2 ^ 53) ^ 2) * (16 / 10 * (1 - 1 / 2 ^ 53) ^ 2) ^ k := by ring
        _ ≤ fl64 (b * F) * (16 / 10 * (1 - 1 / 2 ^ 53) ^ 2) ^ k :=
            mul_le_mul_of_nonneg_right hlo (by positivity)
        _ ≤ _ := ih0
    · calc backoffLoop64 max F k (fl64 (b * F))
          ≤ fl64 (b * F) * (16 / 10 * (1 + 1 / 2 ^ 53) ^ 2) ^ k := ih1
        _ ≤ b * (16 / 10 * (1 + 1 / 2 ^ 53) ^ 2) * (16 / 10 * (1 + 1 / 2 ^ 53) ^ 2) ^ k :=
            mul_le_mul_of_nonneg_right hhi (by positivity)
        _ = b * (16 / 10 * (1 + 1 / 2 ^ 53) ^ 2) ^ (k + 1) := by ring

theorem one_add_pow_le (a : ℚ) (ha : 0 ≤ a) :
    ∀ m : Nat, 2 * (m : ℚ) * a ≤ 1 → (1 + a) ^ m ≤ 1 + 2 * (m : ℚ) * a := by
  intro m
  induction m with
  | zero => intro _; simp
  | succ m ih =>
    intro h
    push_cast at h ⊢
    have hm : (0 : ℚ) ≤ (m : ℚ) := Nat.cast_nonneg m
    have h1 : 2 * (m : ℚ) * a ≤ 1 := by nlinarith
    have h2 := ih h1
    have h3 : (1 + a) ^ (m + 1) = (1 + a) ^ m * (1 + a) := by ring
    rw [h3]
    have h4 : (1 + a) ^ m * (1 + a) ≤ (1 + 2 * (m : ℚ) * a) * (1 + a) :=
      mul_le_mul_of_nonneg_right h2 (by linarith)
    nlinarith

theorem rounding_pow_bounds (m : Nat) (hm : m ≤ 512) :
    (1 + 1 / 2 ^ 53 : ℚ) ^ m ≤ 1 + 1 / 10 ^ 6 ∧ 1 - 1 / 10 ^ 6 ≤ (1 - 1 / 2 ^ 53 : ℚ) ^ m := by
  have hmq : (m : ℚ) ≤ 512 := by exact_mod_cast hm
  have hm0 : (0 : ℚ) ≤ (m : ℚ) := Nat.cast_nonneg m
  constructor
  · have h := one_add_pow_le (1 / 2 ^ 53) (by norm_num) m (by
      have : (2 : ℚ) * 512 * (1 / 2 ^ 53) ≤ 1 := by norm_num
      nlinarith)
    have : 2 * (m : ℚ) * (1 / 2 ^ 53) ≤ 1 / 10 ^ 6 := by
      have : (2 : ℚ) * 512 * (1 / 2 ^ 53) ≤ 1 / 10 ^ 6 := by norm_num
      nlinarith
    linarith
  · have h := one_add_mul_le_pow (show (-2 : ℚ) ≤ -(1 / 2 ^ 53) by norm_num) m
    have h1 : (1 + -(1 / 2 ^ 53) : ℚ) = 1 - 1 / 2 ^ 53 := by ring
    rw [h1] at h
    have : (m : ℚ) * (1 / 2 ^ 53) ≤ 1 / 10 ^ 6 := by
      have : (512 : ℚ) * (1 / 2 ^ 53) ≤ 1 / 10 ^ 6 := by norm_num
      nlinarith
    linarith

theorem retries_bounded (base max : ℚ) (k : Nat) (hbase : 1 ≤ base) (hmax : max ≤ 2 ^ 62)
    (h : base * (16 / 10) ^ k ≤ max) : k < 200 := by
  by_contra hk
  have hk' : 200 ≤ k := not_lt.mp hk
  have h1 : (16 / 10 : ℚ) ^ 200 ≤ (16 / 10) ^ k := pow_le_pow_right₀ (by norm_num) hk'
  have h2 : (2 : ℚ) ^ 62 < (16 / 10) ^ 200 := by norm_num
  have h3 : (16 / 10 : ℚ) ^ k ≤ base * (16 / 10) ^ k := by
    have : (0 : ℚ) ≤ (16 / 10) ^ k := by positivity
    nlinarith
  linarith

theorem DefaultBackoff64_eq (base max : ℚ) (k : Nat) (r : ℚ) (hk : 1 ≤ k) :
    DefaultBackoff64 base max (k : Int) r
      = (if fl64 ((if backoffLoop64 max (fl64 (16 / 10)) k base > max then max
              else backoffLoop64 max (fl64 (16 / 10)) k base)
            * jitterFactor64 (fl64 (2 / 10)) r) < 0 then 0
          else truncDuration (fl64 ((if backoffLoop64 max (fl64 (16 / 10)) k base > max then max
              else backoffLoop64 max (fl64 (16 / 10)) k base)
            * jitterFactor64 (fl64 (2 / 10)) r))) := by
  have hk0 : ((k : Int) = 0) = False := by
    simp only [eq_iff_iff, iff_false]
    omega
  unfold DefaultBackoff64 Backoff64
  simp only [hk0, if_false, Int.toNat_ofNat]

theorem DefaultBackoff64_upper (base max : ℚ) (k : Nat) (r : ℚ) (hk : 1 ≤ k)
    (hbase : 1 / 2 ^ 1022 ≤ base)
    (hlt : ∀ i, i < k → base * (16 / 10 * (1 + 1 / 2 ^ 53) ^ 2) ^ i < max)
    (hr0 : 0 ≤ r) (hr1 : r < 1) :
    ((DefaultBackoff64 base max (k : Int) r : Int) : ℚ)
      ≤ base * (16 / 10 * (1 + 1 / 2 ^ 53) ^ 2) ^ k * (12 / 10 + 1 / 10 ^ 5) * (1 + 1 / 2 ^ 53)
        + 1 / 2 ^ 1075 := by
  obtain ⟨hF0, hF1⟩ := factor64_bounds
  obtain ⟨hL0, hL1⟩ := backoffLoop64_bounds max (fl64 (16 / 10)) hF0 hF1 k base hbase hlt
  obtain ⟨hJ0, hJ1⟩ := jitterFactor64_bounds r hr0 hr1
  have hbpos : 0 < base := lt_of_lt_of_le (by positivity) hbase
  have hmaxpos : 0 < max := by
    have := hlt 0 (by omega)
    simp only [pow_zero, mul_one] at this
    linarith
  have hLpos : 0 < backoffLoop64 max (fl64 (16 / 10)) k base :=
    lt_of_lt_of_le (mul_pos hbpos (by positivity)) hL0
  rw [DefaultBackoff64_eq base max k r hk]
  generalize hc : (if backoffLoop64 max (fl64 (16 / 10)) k base > max then max
      else backoffLoop64 max (fl64 (16 / 10)) k base) = c
  have hc0 : 0 < c := by
    rw [← hc]; split_ifs <;> assumption
  have hc1 : c ≤ base * (16 / 10 * (1 + 1 / 2 ^ 53) ^ 2) ^ k := by
    rw [← hc]; split_ifs with h
    · linarith
    · exact hL1
  generalize jitterFactor64 (fl64 (2 / 10)) r = J at hJ0 hJ1 ⊢
  have hJpos : 0 < J := lt_of_lt_of_le (by norm_num) hJ0
  have hx0 : 0 ≤ c * J := (mul_pos hc0 hJpos).le
  have hx1 : c * J ≤ base * (16 / 10 * (1 + 1 / 2 ^ 53) ^ 2) ^ k * (12 / 10 + 1 / 10 ^ 5) :=
    mul_le_mul hc1 hJ1 hJpos.le (le_trans hc0.le hc1)
  have herr := abs_le.mp (fl64_err (c * J))
  rw [abs_of_nonneg hx0] at herr
  have hv : fl64 (c * J)
      ≤ base * (16 / 10 * (1 + 1 / 2 ^ 53) ^ 2) ^ k * (12 / 10 + 1 / 10 ^ 5) * (1 + 1 / 2 ^ 53)
        + 1 / 2 ^ 1075 := by
    have h1 : fl64 (c * J) ≤ c * J * (1 + 1 / 2 ^ 53) + 1 / 2 ^ 1075 := by linarith [herr.2]
    have h2 : c * J * (1 + 1 / 2 ^ 53)
        ≤ base * (16 / 10 * (1 + 1 / 2 ^ 53) ^ 2) ^ k * (12 / 10 + 1 / 10 ^ 5) * (1 + 1 / 2 ^ 53) :=
      mul_le_mul_of_nonneg_right hx1 (by norm_num)
    linarith
  have hbound0 : (0 : ℚ)
      ≤ base * (16 / 10 * (1 + 1 / 2 ^ 53) ^ 2) ^ k * (12 / 10 + 1 / 10 ^ 5) * (1 + 1 / 2 ^ 53)
        + 1 / 2 ^ 1075 := by positivity
  by_cases hneg : fl64 (c * J) < 0
  · rw [if_pos hneg, Int.cast_zero]
    exact hbound0
  · rw [if_neg hneg, truncDuration_of_nonneg _ (not_lt.mp hneg)]
    exact le_trans (Int.floor_le _) hv

theorem DefaultBackoff64_lower (base max : ℚ) (k : Nat) (r : ℚ) (lo : ℚ) (hk : 1 ≤ k)
    (hbase : 1 / 2 ^ 1022 ≤ base)
    (hlt : ∀ i, i < k → base * (16 / 10 * (1 + 1 / 2 ^ 53) ^ 2) ^ i < max)
    (hlo1 : lo ≤ base * (16 / 10 * (1 - 1 / 2 ^ 53) ^ 2) ^ k) (hlo2 : lo ≤ max) (hlo3 : 2 ≤ lo)
    (hr0 : 0 ≤ r) (hr1 : r < 1) :
    lo * (8 / 10 - 1 / 10 ^ 5) * (1 - 1 / 2 ^ 53) - 1
      < ((DefaultBackoff64 base max (k : Int) r : Int) : ℚ) := by
  obtain ⟨hF0, hF1⟩ := factor64_bounds
  obtain ⟨hL0, hL1⟩ := backoffLoop64_bounds max (fl64 (16 / 10)) hF0 hF1 k base hbase hlt
  obtain ⟨hJ0, hJ1⟩ := jitterFactor64_bounds r hr0 hr1
  rw [DefaultBackoff64_eq base max k r hk]
  generalize hc : (if backoffLoop64 max (fl64 (16 / 10)) k base > max then max
      else backoffLoop64 max (fl64 (16 / 10)) k base) = c
  have hc1 : lo ≤ c := by
    rw [← hc]; split_ifs with h
    · exact hlo2
    · exact le_trans hlo1 hL0
  generalize jitterFactor64 (fl64 (2 / 10)) r = J at hJ0 hJ1 ⊢
  have hJpos : 0 < J := lt_of_lt_of_le (by norm_num) hJ0
  have hx1 : lo * (8 / 10 - 1 / 10 ^ 5) ≤ c * J :=
    mul_le_mul hc1 hJ0 (by norm_num) (by linarith)
  have hx0 : (1 : ℚ) ≤ c * J := by nlinarith
  have hrel := fl64_rel (c * J) (by
    rw [abs_of_pos (by linarith)]
    have : (1 : ℚ) / 2 ^ 1022 ≤ 1 := by norm_num
    linarith)
  rw [abs_of_pos (by linarith : (0 : ℚ) < c * J)] at hrel
  have hr := abs_le.mp hrel
  have hv : lo * (8 / 10 - 1 / 10 ^ 5) * (1 - 1 / 2 ^ 53) ≤ fl64 (c * J) := by
    have h1 : c * J * (1 - 1 / 2 ^ 53) ≤ fl64 (c * J) := by linarith [hr.1]
    have h2 : lo * (8 / 10 - 1 / 10 ^ 5) * (1 - 1 / 2 ^ 53) ≤ c * J * (1 - 1 / 2 ^ 53) :=
      mul_le_mul_of_nonneg_right hx1 (by norm_num)
    linarith
  have hv0 : 0 ≤ fl64 (c * J) := by
    have : (0 : ℚ) ≤ lo * (8 / 10 - 1 / 10 ^ 5) * (1 - 1 / 2 ^ 53) := by
      have : (0 : ℚ) ≤ lo := by linarith
      positivity
    linarith
  rw [if_neg (not_lt.mpr hv0), truncDuration_of_nonneg _ hv0]
  have := Int.lt_floor_add_one (fl64 (c * J))
  linarith

theorem uncapped_steps (base max : ℚ) (n : Nat) (hbase : 1 ≤ base) (hmax : max ≤ 2 ^ 62)
    (hunc : base * (16 / 10) ^ (n + 1) ≤ max) :
    ∀ i, i < n + 1 → base * (16 / 10 * (1 + 1 / 2 ^ 53) ^ 2) ^ i < max := by
  intro i hi
  have hn := retries_bounded base max (n + 1) hbase hmax hunc
  have hp := (rounding_pow_bounds (2 * i) (by omega)).1
  have hpow : (16 / 10 : ℚ) ^ i ≤ (16 / 10) ^ n := pow_le_pow_right₀ (by norm_num) (by omega)
  have hbn : 0 < base * (16 / 10) ^ n := by positivity
  have h1 : base * (16 / 10 * (1 + 1 / 2 ^ 53) ^ 2) ^ i
      = base * (16 / 10) ^ i * (1 + 1 / 2 ^ 53) ^ (2 * i) := by
    rw [mul_pow, ← pow_mul]; ring
  have h2 : base * (16 / 10) ^ i ≤ base * (16 / 10) ^ n :=
    mul_le_mul_of_nonneg_left hpow (by linarith)
  have h3 : base * (16 / 10) ^ i * (1 + 1 / 2 ^ 53) ^ (2 * i)
      ≤ base * (16 / 10) ^ n * (1 + 1 / 10 ^ 6) :=
    mul_le_mul h2 hp (by positivity) hbn.le
  have h4 : base * (16 / 10) ^ (n + 1) = base * (16 / 10) ^ n * (16 / 10) := by ring
  rw [h1]
  nlinarith

theorem truncDuration_guard_nonneg (v : ℚ) : 0 ≤ (if v < 0 then 0 else truncDuration v) := by
  split_ifs with h
  · exact le_refl 0
  · rw [truncDuration_of_nonneg _ (not_lt.mp h)]
    exact Int.floor_nonneg.mpr (not_lt.mp h)

theorem DefaultBackoff64_nonneg (base max : ℚ) (retries : Int) (r : ℚ) :
    0 ≤ DefaultBackoff64 base max retries r := by
  unfold DefaultBackoff64 Backoff64
  by_cases h0 : retries = 0
  · simp [h0]
  · simp only [h0, if_false]
    exact truncDuration_guard_nonneg _

/-- C12, as the code has it: in binary64 arithmetic, the failure backoff is
strictly increasing while uncapped, whatever the jitter, once the uncapped
backoff is at least 13ns. For every base delay of at least 1ns, every
`maxDelay` up to `2^62` ns, every retry count `n >= 1` with
`base * 1.6^(n+1) <= maxDelay` and `base * 1.6^n >= 13`, and every pair of
jitter draws `r`, `r'` in `[0,1)`, `DefaultBackoff(base, maxDelay, n+1)`
computed with `r'` is strictly greater than `DefaultBackoff(base, maxDelay, n)`
computed with `r`. -/
theorem C12_backoff_strictly_increasing (base max : ℚ) (n : Nat) (r r' : ℚ)
    (hbase : 1 ≤ base) (hmax : max ≤ 2 ^ 62) (hn : 1 ≤ n)
    (hunc : base * (16 / 10) ^ (n + 1) ≤ max) (hbig : 13 ≤ base * (16 / 10) ^ n)
    (hr0 : 0 ≤ r) (hr1 : r < 1) (hr0' : 0 ≤ r') (hr1' : r' < 1) :
    DefaultBackoff64 base max (n : Int) r < DefaultBackoff64 base max ((n + 1 : Nat) : Int) r' := by
  have hb1022 : (1 : ℚ) / 2 ^ 1022 ≤ base := le_trans (by norm_num) hbase
  have hsteps := uncapped_steps base max n hbase hmax hunc
  have hnb := retries_bounded base max (n + 1) hbase hmax hunc
  have hBpos : 0 < base * (16 / 10) ^ n := by positivity
  have hstep : base * (16 / 10) ^ (n + 1) = base * (16 / 10) ^ n * (16 / 10) := by ring
  -- the shorter wait from above
  have hup := DefaultBackoff64_upper base max n r hn hb1022
    (fun i hi => hsteps i (by omega)) hr0 hr1
  have hP := (rounding_pow_bounds (2 * n) (by omega)).1
  have hU : base * (16 / 10 * (1 + 1 / 2 ^ 53) ^ 2) ^ n
      ≤ base * (16 / 10) ^ n * (1 + 1 / 10 ^ 6) := by
    have : base * (16 / 10 * (1 + 1 / 2 ^ 53) ^ 2) ^ n
        = base * (16 / 10) ^ n * (1 + 1 / 2 ^ 53) ^ (2 * n) := by
      rw [mul_pow, ← pow_mul]; ring
    rw [this]
    exact mul_le_mul_of_nonneg_left hP hBpos.le
  -- the longer wait from below
  have hQ := (rounding_pow_bounds (2 * (n + 1)) (by omega)).2
  have hL : base * (16 / 10) ^ n * (16 / 10) * (1 - 1 / 10 ^ 6)
      ≤ base * (16 / 10 * (1 - 1 / 2 ^ 53) ^ 2) ^ (n + 1) := by
    have : base * (16 / 10 * (1 - 1 / 2 ^ 53) ^ 2) ^ (n + 1)
        = base * (16 / 10) ^ n * (16 / 10) * (1 - 1 / 2 ^ 53) ^ (2 * (n + 1)) := by
      rw [mul_pow, ← pow_mul]; ring
    rw [this]
    exact mul_le_mul_of_nonneg_left hQ (by positivity)
  have hlo := DefaultBackoff64_lower base max (n + 1) r'
    (base * (16 / 10) ^ n * (16 / 10) * (1 - 1 / 10 ^ 6)) (by omega) hb1022 hsteps hL
    (by rw [hstep] at hunc; nlinarith) (by nlinarith) hr0' hr1'
  -- numbers
  set B := base * (16 / 10) ^ n with hB
  have h1 : B * (16 / 10 * (1 + 1 / 2 ^ 53) ^ 2) ^ 0 = B := by simp
  have hupB : ((DefaultBackoff64 base max (n : Int) r : Int) : ℚ)
      ≤ B * (1 + 1 / 10 ^ 6) * (12 / 10 + 1 / 10 ^ 5) * (1 + 1 / 2 ^ 53) + 1 / 2 ^ 1075 := by
    have : base * (16 / 10 * (1 + 1 / 2 ^ 53) ^ 2) ^ n * (12 / 10 + 1 / 10 ^ 5) * (1 + 1 / 2 ^ 53)
        ≤ B * (1 + 1 / 10 ^ 6) * (12 / 10 + 1 / 10 ^ 5) * (1 + 1 / 2 ^ 53) :=
      mul_le_mul_of_nonneg_right (mul_le_mul_of_nonneg_right hU (by norm_num)) (by norm_num)
    linarith
  have hnum1 : B * (1 + 1 / 10 ^ 6) * (12 / 10 + 1 / 10 ^ 5) * (1 + 1 / 2 ^ 53) + 1 / 2 ^ 1075
      ≤ B * (12001 / 10000) := by
    have e1 : (1 + 1 / 10 ^ 6 : ℚ) * (12 / 10 + 1 / 10 ^ 5) * (1 + 1 / 2 ^ 53) ≤ 120002 / 100000 := by
      norm_num
    have e2 : (1 : ℚ) / 2 ^ 1075 ≤ 1 / 10 ^ 6 := by norm_num
    nlinarith
  have hnum2 : B * (12799 / 10000)
      ≤ B * (16 / 10) * (1 - 1 / 10 ^ 6) * (8 / 10 - 1 / 10 ^ 5) * (1 - 1 / 2 ^ 53) := by
    have e1 : (12799 / 10000 : ℚ)
        ≤ 16 / 10 * (1 - 1 / 10 ^ 6) * (8 / 10 - 1 / 10 ^ 5) * (1 - 1 / 2 ^ 53) := by norm_num
    nlinarith
  have hfinal : ((DefaultBackoff64 base max (n : Int) r : Int) : ℚ)
      < ((DefaultBackoff64 base max ((n + 1 : Nat) : Int) r' : Int) : ℚ) := by
    nlinarith
  exact_mod_cast hfinal

/-- C12 as amended, at base 100ms and `maxDelay` 2s: the wait after the fourth
consecutive failure (retry count 3) exceeds the wait after the third (retry
count 2), here with the draws 0.75 and 0.25. -/
theorem C12_backoff_strictly_increasing_witness :
    DefaultBackoff64 100000000 2000000000 ((2 : Nat) : Int) (3 / 4)
      < DefaultBackoff64 100000000 2000000000 ((2 + 1 : Nat) : Int) (1 / 4) :=
  C12_backoff_strictly_increasing 100000000 2000000000 2 (3 / 4) (1 / 4) (by norm_num)
    (by norm_num) (by norm_num) (by norm_num) (by norm_num) (by norm_num) (by norm_num)
    (by norm_num) (by norm_num)

/-- C12 as stated fails: with a base delay of 0.25ns, `maxDelay` 10ns and both
draws 0.5, the delays for retry counts 1 and 2 are both 0 whole nanoseconds,
so the second is not strictly greater. -/
theorem C12_tiny_base_not_increasing :
    (0 : ℚ) < 1 / 4 ∧ (1 / 4 : ℚ) * (16 / 10) ^ (1 + 1) ≤ 10
    ∧ DefaultBackoff64 (1 / 4) 10 ((1 : Nat) : Int) (1 / 2) = 0
    ∧ DefaultBackoff64 (1 / 4) 10 ((1 + 1 : Nat) : Int) (1 / 2) = 0
    ∧ ¬ (DefaultBackoff64 (1 / 4) 10 ((1 : Nat) : Int) (1 / 2)
          < DefaultBackoff64 (1 / 4) 10 ((1 + 1 : Nat) : Int) (1 / 2)) := by
  have hlt : ∀ i, i < 2 → (1 / 4 : ℚ) * (16 / 10 * (1 + 1 / 2 ^ 53) ^ 2) ^ i < 10 := by
    intro i hi
    interval_cases i <;> norm_num
  have h1 : DefaultBackoff64 (1 / 4) 10 ((1 : Nat) : Int) (1 / 2) = 0 := by
    have hup := DefaultBackoff64_upper (1 / 4) 10 1 (1 / 2) (le_refl 1) (by norm_num)
      (fun i hi => hlt i (by omega)) (by norm_num) (by norm_num)
    have hnn := DefaultBackoff64_nonneg (1 / 4) 10 ((1 : Nat) : Int) (1 / 2)
    have hnum : (1 / 4 : ℚ) * (16 / 10 * (1 + 1 / 2 ^ 53) ^ 2) ^ 1 * (12 / 10 + 1 / 10 ^ 5)
        * (1 + 1 / 2 ^ 53) + 1 / 2 ^ 1075 < 1 := by norm_num
    have hlt1 : ((DefaultBackoff64 (1 / 4) 10 ((1 : Nat) : Int) (1 / 2) : Int) : ℚ) < 1 :=
      lt_of_le_of_lt hup hnum
    have : DefaultBackoff64 (1 / 4) 10 ((1 : Nat) : Int) (1 / 2) < 1 := by exact_mod_cast hlt1
    omega
  have h2 : DefaultBackoff64 (1 / 4) 10 ((1 + 1 : Nat) : Int) (1 / 2) = 0 := by
    have hup := DefaultBackoff64_upper (1 / 4) 10 (1 + 1) (1 / 2) (by omega) (by norm_num)
      hlt (by norm_num) (by norm_num)
    have hnn := DefaultBackoff64_nonneg (1 / 4) 10 ((1 + 1 : Nat) : Int) (1 / 2)
    have hnum : (1 / 4 : ℚ) * (16 / 10 * (1 + 1 / 2 ^ 53) ^ 2) ^ (1 + 1) * (12 / 10 + 1 / 10 ^ 5)
        * (1 + 1 / 2 ^ 53) + 1 / 2 ^ 1075 < 1 := by norm_num
    have hlt1 : ((DefaultBackoff64 (1 / 4) 10 ((1 + 1 : Nat) : Int) (1 / 2) : Int) : ℚ) < 1 :=
      lt_of_le_of_lt hup hnum
    have : DefaultBackoff64 (1 / 4) 10 ((1 + 1 : Nat) : Int) (1 / 2) < 1 := by exact_mod_cast hlt1
    omega
  refine ⟨by norm_num, by norm_num, h1, h2, ?_⟩
  rw [h1, h2]
  exact lt_irrefl 0

/-! ## Theorems: logger configuration -/

theorem wrapInt64_of_range (x : Int) (h0 : -(2 ^ 63) ≤ x) (h1 : x < 2 ^ 63) : wrapInt64 x = x := by
  unfold wrapInt64
  rw [Int.emod_eq_of_lt (by omega) (by omega)]
  omega

/-- C13: `validateAndInjectDefaults` returns an error exactly when one of
`MinDelaySeconds` and `MaxDelaySeconds` is set without the other, or both are
set with max < min. When it succeeds the chunk size limit is the one supplied,
or 32768 when unset, the buffer size limit is the one supplied, or 0 when
unset, and with neither delay set the stored bounds are 1 second and 10
seconds. -/
theorem C13_validate_errors_and_defaults (c : DecisionLogConfig) :
    ((c.validateAndInjectDefaults).2 ≠ none ↔
        ((c.MinDelaySeconds ≠ none ∧ c.MaxDelaySeconds = none)
          ∨ (c.MinDelaySeconds = none ∧ c.MaxDelaySeconds ≠ none)
          ∨ ∃ mn mx, c.MinDelaySeconds = some mn ∧ c.MaxDelaySeconds = some mx ∧ mx < mn))
    ∧ ((c.validateAndInjectDefaults).2 = none →
        (c.validateAndInjectDefaults).1.BufferChunkSizeBytes
            = some (c.BufferChunkSizeBytes.getD 32768)
        ∧ (c.validateAndInjectDefaults).1.BufferSizeLimitBytes
            = some (c.BufferSizeLimitBytes.getD 0)
        ∧ (c.MinDelaySeconds = none → c.MaxDelaySeconds = none →
            (c.validateAndInjectDefaults).1.MinDelaySeconds = some (1 * timeSecond)
            ∧ (c.validateAndInjectDefaults).1.MaxDelaySeconds = some (10 * timeSecond))) := by
  have hchunk : ∀ mn mx, (c.injectDefaults mn mx).BufferChunkSizeBytes
      = some (c.BufferChunkSizeBytes.getD 32768) := by
    intro mn mx
    rcases h : c.BufferChunkSizeBytes with _ | v <;>
      simp [DecisionLogConfig.injectDefaults, h, defaultBufferChunkSizeBytes]
  have hbuf : ∀ mn mx, (c.injectDefaults mn mx).BufferSizeLimitBytes
      = some (c.BufferSizeLimitBytes.getD 0) := by
    intro mn mx
    rcases h : c.BufferSizeLimitBytes with _ | v <;>
      simp [DecisionLogConfig.injectDefaults, h, defaultBufferSizeLimitBytes]
  rcases hmx : c.MaxDelaySeconds with _ | mx <;> rcases hmn : c.MinDelaySeconds with _ | mn
  · refine ⟨by simp [DecisionLogConfig.validateAndInjectDefaults, hmx, hmn], ?_⟩
    intro _
    have hv : c.validateAndInjectDefaults
        = (c.injectDefaults defaultMinDelaySeconds defaultMaxDelaySeconds, none) := by
      simp [DecisionLogConfig.validateAndInjectDefaults, hmx, hmn]
    rw [hv]
    refine ⟨hchunk _ _, hbuf _ _, fun _ _ => ⟨?_, ?_⟩⟩
    · simp only [DecisionLogConfig.injectDefaults, defaultMinDelaySeconds, timeSecond]
      rw [wrapInt64_of_range _ (by norm_num) (by norm_num)]
    · simp only [DecisionLogConfig.injectDefaults, defaultMaxDelaySeconds, timeSecond]
      rw [wrapInt64_of_range _ (by norm_num) (by norm_num)]
  · exact ⟨by simp [DecisionLogConfig.validateAndInjectDefaults, hmx, hmn],
      by simp [DecisionLogConfig.validateAndInjectDefaults, hmx, hmn]⟩
  · exact ⟨by simp [DecisionLogConfig.validateAndInjectDefaults, hmx, hmn],
      by simp [DecisionLogConfig.validateAndInjectDefaults, hmx, hmn]⟩
  · by_cases hlt : mx < mn
    · exact ⟨by simp [DecisionLogConfig.validateAndInjectDefaults, hmx, hmn, hlt],
        by simp [DecisionLogConfig.validateAndInjectDefaults, hmx, hmn, hlt]⟩
    · have hv : c.validateAndInjectDefaults = (c.injectDefaults mn mx, none) := by
        simp [DecisionLogConfig.validateAndInjectDefaults, hmx, hmn, hlt]
      rw [hv]
      refine ⟨by simp [hlt], fun _ => ⟨hchunk _ _, hbuf _ _, fun h => ?_⟩⟩
      simp at h

/-- C13, at the configuration with nothing set: no error, and the defaults. -/
theorem C13_validate_errors_and_defaults_witness :
    (sampleConfig.validateAndInjectDefaults).1.BufferChunkSizeBytes = some 32768
    ∧ (sampleConfig.validateAndInjectDefaults).1.BufferSizeLimitBytes = some 0
    ∧ (sampleConfig.validateAndInjectDefaults).1.MinDelaySeconds = some 1000000000
    ∧ (sampleConfig.validateAndInjectDefaults).1.MaxDelaySeconds = some 10000000000 :=
  have h := (C13_validate_errors_and_defaults sampleConfig).2 rfl
  ⟨h.1, h.2.1, (h.2.2 rfl rfl).1, (h.2.2 rfl rfl).2⟩

/-! ## Theorems: decision endpoint -/

theorem ReadAndValidate_ok (validate : DecisionRequest → List FieldError) (req : DecisionRequest)
    (h : validate req = []) : ReadAndValidate validate req = (some req, []) := by
  simp [ReadAndValidate, ValidateStruct, h]

theorem ReadAndValidate_errors (validate : DecisionRequest → List FieldError)
    (req : DecisionRequest) (h : validate req ≠ []) :
    ReadAndValidate validate req = (none, ValidateStruct validate req)
    ∧ ∃ e es, ValidateStruct validate req = e :: es := by
  obtain ⟨e, es, hes⟩ := List.exists_cons_of_ne_nil h
  refine ⟨by simp [ReadAndValidate, ValidateStruct, hes], ?_⟩
  exact ⟨{ FailedField := e.StructNamespace, Tag := e.Tag, Value := e.Param },
    es.map (fun err => { FailedField := err.StructNamespace, Tag := err.Tag, Value := err.Param }),
    by simp [ValidateStruct, hes]⟩

/-- C14: a request that passes validation while `Ready()` is false is answered
with status 503: `PdpCheck` returns the service-unavailable error without
writing a response and without calling `Decision`, so the answer is never a
500. A request that fails validation is answered with status 400 and the list
of validation errors, whatever `Ready()` is, again without calling `Decision`. -/
theorem C14_not_ready_is_unavailable {S Q : Type} (p : PermitClient S Q)
    (Decision : DecisionOptions → Except String DecisionResult)
    (validate : DecisionRequest → List FieldError) (ip : String) (req : DecisionRequest) :
    (validate req = [] → p.Ready = false →
        (PdpCheck p Decision validate ip req).err
            = some (HandlerError.fiber 503 "PDP not ready: no policies loaded")
        ∧ (PdpCheck p Decision validate ip req).decisionCalls = []
        ∧ (PdpCheck p Decision validate ip req).written.isNone = true
        ∧ (servePdpCheck p Decision validate ip req).status = 503
        ∧ (servePdpCheck p Decision validate ip req).status ≠ 500)
    ∧ (validate req ≠ [] →
        (PdpCheck p Decision validate ip req).err = none
        ∧ (PdpCheck p Decision validate ip req).decisionCalls = []
        ∧ (servePdpCheck p Decision validate ip req).status = 400
        ∧ (servePdpCheck p Decision validate ip req).body
            = Json.arr ((ValidateStruct validate req).map (·.toJson))) := by
  constructor
  · intro hv hr
    have hcheck : PdpCheck p Decision validate ip req
        = ⟨none, some (HandlerError.fiber 503 "PDP not ready: no policies loaded"), []⟩ := by
      simp [PdpCheck, ReadAndValidate_ok validate req hv, hr, fiberNewError,
        StatusServiceUnavailable]
    simp [servePdpCheck, hcheck, CustomErrorHandler]
  · intro hv
    obtain ⟨hread, e, es, hes⟩ := ReadAndValidate_errors validate req hv
    have hcheck : PdpCheck p Decision validate ip req
        = ⟨some { status := 400, body := Json.arr ((ValidateStruct validate req).map (·.toJson)) },
            none, []⟩ := by
      simp [PdpCheck, hread, hes, StatusBadRequest]
    simp [servePdpCheck, hcheck]

/-- C14, on a client built by `New` on which no policy was activated. -/
theorem C14_not_ready_is_unavailable_witness :
    (servePdpCheck sampleClient allowAll acceptRequest "10.0.0.1" sampleRequest).status = 503
    ∧ (servePdpCheck sampleClient allowAll rejectRequest "10.0.0.1" sampleRequest).status = 400 :=
  ⟨((C14_not_ready_is_unavailable sampleClient allowAll acceptRequest "10.0.0.1"
      sampleRequest).1 rfl rfl).2.2.2.1,
    ((C14_not_ready_is_unavailable sampleClient allowAll rejectRequest "10.0.0.1"
      sampleRequest).2 (by decide)).2.2.1⟩

/-- C15, as the code has it: on every successful decision the response has
status 200 and its body is an object with exactly the keys `decision_id` and
`result`, where `decision_id` carries the ID of the `DecisionResult` returned
by `Decision` and `result` carries its `Result`. -/
theorem C15_response_keys {S Q : Type} (p : PermitClient S Q)
    (Decision : DecisionOptions → Except String DecisionResult)
    (validate : DecisionRequest → List FieldError) (ip : String) (req : DecisionRequest)
    (d : DecisionResult)
    (hv : validate req = []) (hr : p.Ready = true)
    (hd : Decision { RemoteAddr := ip, Path := req.Path, Input := req } = .ok d) :
    (PdpCheck p Decision validate ip req).err = none
    ∧ (servePdpCheck p Decision validate ip req).status = 200
    ∧ (servePdpCheck p Decision validate ip req).body
        = Json.obj [("decision_id", Json.str d.ID), ("result", d.Result)]
    ∧ (servePdpCheck p Decision validate ip req).body.keys = ["decision_id", "result"]
    ∧ (servePdpCheck p Decision validate ip req).body.field "decision_id" = some (Json.str d.ID)
    ∧ (servePdpCheck p Decision validate ip req).body.field "result" = some d.Result := by
  have hcheck : PdpCheck p Decision validate ip req
      = ⟨some { status := 200,
                body := Json.obj [("decision_id", Json.str d.ID), ("result", d.Result)] },
          none, [{ RemoteAddr := ip, Path := req.Path, Input := req }]⟩ := by
    simp [PdpCheck, ReadAndValidate_ok validate req hv, hr, hd, StatusOK,
      DecisionResponse.toJson]
  simp [servePdpCheck, hcheck, Json.keys, Json.field]

/-- C15 as amended, on a client with a policy activated and a `Decision` that
answers `true` under the identifier `d-1`. -/
theorem C15_response_keys_witness :
    (servePdpCheck readyClient allowAll acceptRequest "10.0.0.1" sampleRequest).body.keys
      = ["decision_id", "result"] :=
  (C15_response_keys readyClient allowAll acceptRequest "10.0.0.1" sampleRequest _ rfl rfl
    rfl).2.2.2.1

/-- C15 as stated fails: on a successful decision the body has no member
`decisionId`; its keys are `decision_id` and `result`. -/
theorem C15_no_decisionId_key :
    (servePdpCheck readyClient allowAll acceptRequest "10.0.0.1" sampleRequest).status = 200
    ∧ (servePdpCheck readyClient allowAll acceptRequest "10.0.0.1" sampleRequest).body.keys
        ≠ ["decisionId", "result"]
    ∧ "decisionId" ∉
        (servePdpCheck readyClient allowAll acceptRequest "10.0.0.1" sampleRequest).body.keys
    ∧ ((servePdpCheck readyClient allowAll acceptRequest "10.0.0.1" sampleRequest).body.field
        "decisionId").isNone = true := by
  decide

theorem successDelay_mem (mn mx : Int) (r : ℚ) (h0 : 0 ≤ mn) (hle : mn ≤ mx)
    (hfit : mx < 2 ^ 53) (hr0 : 0 ≤ r) (hr1 : r < 1) :
    mn ≤ successDelay mn mx r ∧ successDelay mn mx r ≤ mx := by
  have hfmn : fl64 (mn : ℚ) = mn := fl64_intCast mn h0 (by omega)
  have hfmx : fl64 (mx : ℚ) = mx := fl64_intCast mx (by omega) hfit
  have hd : fl64 ((mx : ℚ) - (mn : ℚ)) = (mx : ℚ) - (mn : ℚ) := by
    have := fl64_intCast (mx - mn) (by omega) (by omega)
    push_cast at this
    exact this
  have hq0 : (0 : ℚ) ≤ (mn : ℚ) := by exact_mod_cast h0
  have hqle : (mn : ℚ) ≤ (mx : ℚ) := by exact_mod_cast hle
  have hdr0 : 0 ≤ ((mx : ℚ) - (mn : ℚ)) * r := mul_nonneg (by linarith) hr0
  have hdr1 : ((mx : ℚ) - (mn : ℚ)) * r ≤ (mx : ℚ) - (mn : ℚ) := by nlinarith
  have ht0 : 0 ≤ fl64 (((mx : ℚ) - (mn : ℚ)) * r) := fl64_nonneg hdr0
  have ht1 : fl64 (((mx : ℚ) - (mn : ℚ)) * r) ≤ (mx : ℚ) - (mn : ℚ) := by
    have := fl64_mono_nonneg hdr0 hdr1
    rw [hd] at this
    exact this
  have hs0 : (mn : ℚ) ≤ fl64 (fl64 (((mx : ℚ) - (mn : ℚ)) * r) + (mn : ℚ)) := by
    have := fl64_mono_nonneg hq0 (show (mn : ℚ) ≤ fl64 (((mx : ℚ) - (mn : ℚ)) * r) + (mn : ℚ) by
      linarith)
    rw [hfmn] at this
    exact this
  have hs1 : fl64 (fl64 (((mx : ℚ) - (mn : ℚ)) * r) + (mn : ℚ)) ≤ (mx : ℚ) := by
    have := fl64_mono_nonneg
      (show (0 : ℚ) ≤ fl64 (((mx : ℚ) - (mn : ℚ)) * r) + (mn : ℚ) by linarith)
      (show fl64 (((mx : ℚ) - (mn : ℚ)) * r) + (mn : ℚ) ≤ (mx : ℚ) by linarith)
    rw [hfmx] at this
    exact this
  unfold successDelay
  rw [hfmn, hfmx, hd, truncDuration_of_nonneg _ (le_trans hq0 hs0)]
  refine ⟨Int.le_floor.mpr hs0, ?_⟩
  have hfl := Int.floor_le (fl64 (fl64 (((mx : ℚ) - (mn : ℚ)) * r) + (mn : ℚ)))
  have : ((⌊fl64 (fl64 (((mx : ℚ) - (mn : ℚ)) * r) + (mn : ℚ))⌋ : Int) : ℚ) ≤ (mx : ℚ) :=
    le_trans hfl hs1
  exact_mod_cast this

/-- C16, as the code has it: for every pair of inputs `0 <= min <= max` whose
scaled maximum fits in an `int64` (`max * 10^9 < 2^63`), a successful
`validateAndInjectDefaults` stores `min * 10^9` and `max * 10^9`, in that
order; and when the scaled maximum is below `2^53`, so that binary64 holds both
stored bounds exactly, the delay `loop` waits after a cycle without error,
computed in binary64, lies between the stored bounds for every draw in `[0,1)`. -/
theorem C16_scaled_bounds_ordered (c : DecisionLogConfig) (mn mx : Int)
    (hmn : c.MinDelaySeconds = some mn) (hmx : c.MaxDelaySeconds = some mx)
    (h0 : 0 ≤ mn) (hle : mn ≤ mx) (hfit : mx * 10 ^ 9 < 2 ^ 63) :
    (c.validateAndInjectDefaults).2 = none
    ∧ (c.validateAndInjectDefaults).1.MinDelaySeconds = some (mn * 10 ^ 9)
    ∧ (c.validateAndInjectDefaults).1.MaxDelaySeconds = some (mx * 10 ^ 9)
    ∧ mn * 10 ^ 9 ≤ mx * 10 ^ 9
    ∧ (mx * 10 ^ 9 < 2 ^ 53 →
        ∀ (l : decisionLogger) (retry : Int) (r : ℚ),
          l.config = (c.validateAndInjectDefaults).1 → 0 ≤ r → r < 1 →
          ∃ d, l.loopDelay none retry r = some d ∧ mn * 10 ^ 9 ≤ d ∧ d ≤ mx * 10 ^ 9) := by
  have hnlt : ¬ (mx < mn) := not_lt.mpr hle
  have hv : c.validateAndInjectDefaults = (c.injectDefaults mn mx, none) := by
    simp [DecisionLogConfig.validateAndInjectDefaults, hmx, hmn, hnlt]
  have hwmn : wrapInt64 (mn * timeSecond) = mn * 10 ^ 9 := by
    have : mn * timeSecond = mn * 10 ^ 9 := by simp [timeSecond]
    rw [this]
    exact wrapInt64_of_range _ (by nlinarith) (by nlinarith)
  have hwmx : wrapInt64 (mx * timeSecond) = mx * 10 ^ 9 := by
    have : mx * timeSecond = mx * 10 ^ 9 := by simp [timeSecond]
    rw [this]
    exact wrapInt64_of_range _ (by nlinarith) hfit
  have hord : mn * 10 ^ 9 ≤ mx * 10 ^ 9 := by nlinarith
  have hsmn : (c.injectDefaults mn mx).MinDelaySeconds = some (mn * 10 ^ 9) := by
    simp [DecisionLogConfig.injectDefaults, hwmn]
  have hsmx : (c.injectDefaults mn mx).MaxDelaySeconds = some (mx * 10 ^ 9) := by
    simp [DecisionLogConfig.injectDefaults, hwmx]
  rw [hv]
  refine ⟨rfl, hsmn, hsmx, hord, ?_⟩
  intro hexact l retry r hl hr0 hr1
  refine ⟨successDelay (mn * 10 ^ 9) (mx * 10 ^ 9) r, ?_,
    successDelay_mem _ _ r (by nlinarith) hord hexact hr0 hr1⟩
  simp only at hl
  simp [decisionLogger.loopDelay, hl, hsmn, hsmx]

/-- C16 as amended, at min 1 second and max 2 seconds: the stored bounds, and
the delay for the draw 0.5 between them. -/
theorem C16_scaled_bounds_ordered_witness :
    ((delayConfig 1 2).validateAndInjectDefaults).1.MinDelaySeconds = some (1 * 10 ^ 9)
    ∧ ((delayConfig 1 2).validateAndInjectDefaults).1.MaxDelaySeconds = some (2 * 10 ^ 9)
    ∧ ∃ d, decisionLogger.loopDelay
          { sampleLogger with config := ((delayConfig 1 2).validateAndInjectDefaults).1 }
          none 0 (1 / 2) = some d
        ∧ 1 * 10 ^ 9 ≤ d ∧ d ≤ 2 * 10 ^ 9 :=
  have h := C16_scaled_bounds_ordered (delayConfig 1 2) 1 2 rfl rfl (by norm_num) (by norm_num)
    (by norm_num)
  ⟨h.2.1, h.2.2.1, h.2.2.2.2 (by norm_num) _ 0 (1 / 2) rfl (by norm_num) (by norm_num)⟩

/-- C16 as stated fails: min 1 second and max 9223372037 seconds pass the
validation, the scaled maximum wraps around to a negative `int64`, and the
stored maximum is neither `max * 10^9` nor at least the stored minimum. -/
theorem C16_scaled_max_wraps :
    (0 : Int) ≤ 1 ∧ (1 : Int) ≤ 9223372037
    ∧ ((delayConfig 1 9223372037).validateAndInjectDefaults).2 = none
    ∧ ((delayConfig 1 9223372037).validateAndInjectDefaults).1.MinDelaySeconds
        = some 1000000000
    ∧ ((delayConfig 1 9223372037).validateAndInjectDefaults).1.MaxDelaySeconds
        = some (-9223372036709551616)
    ∧ ((delayConfig 1 9223372037).validateAndInjectDefaults).1.MaxDelaySeconds
        ≠ some (9223372037 * 10 ^ 9)
    ∧ ¬ ((1000000000 : Int) ≤ -9223372036709551616) := by
  decide

theorem ulpExp_eq (x : ℚ) (k : Int) (hk : -1022 ≤ k) (h1 : (2 : ℚ) ^ k ≤ |x|)
    (h2 : |x| < (2 : ℚ) ^ (k + 1)) : ulpExp x = k - 52 := by
  have hpos : 0 < |x| := lt_of_lt_of_le (zpow_pos (by norm_num) k) h1
  have ha : k ≤ Int.log 2 |x| := by
    rw [← Int.zpow_le_iff_le_log (by norm_num) hpos]
    exact_mod_cast h1
  have hb : Int.log 2 |x| < k + 1 := by
    rw [← Int.lt_zpow_iff_log_lt (by norm_num) hpos]
    exact_mod_cast h2
  unfold ulpExp
  rw [max_eq_left (by omega)]
  omega

theorem roundHalfEven_tie (m : Int) (hm : m % 2 = 0) : roundHalfEven ((m : ℚ) + 1 / 2) = m := by
  have hfl : ⌊(m : ℚ) + 1 / 2⌋ = m := by
    rw [Int.floor_eq_iff]
    constructor <;> norm_num
  unfold roundHalfEven
  rw [hfl]
  have hfrac : (m : ℚ) + 1 / 2 - (m : ℚ) = 1 / 2 := by ring
  rw [hfrac, if_neg (lt_irrefl _), if_neg (lt_irrefl _), if_pos hm]

/-- Beyond `2^53` the stored bounds are not binary64 values: with both stored
bounds at 4611686021000000000 (4611686021 seconds) the conversion to `float64`
rounds to 4611686020999999488, and the delay for the draw 0 is 512ns below the
stored minimum. -/
theorem successDelay_rounds_below_stored_minimum :
    successDelay 4611686021000000000 4611686021000000000 0 = 4611686020999999488 := by
  have hu1 : ulpExp (4611686021000000000 : ℚ) = 10 := by
    rw [ulpExp_eq _ 62 (by norm_num) (by rw [abs_of_pos (by norm_num)]; norm_num)
      (by rw [abs_of_pos (by norm_num)]; norm_num)]
    norm_num
  have hu2 : ulpExp (4611686020999999488 : ℚ) = 10 := by
    rw [ulpExp_eq _ 62 (by norm_num) (by rw [abs_of_pos (by norm_num)]; norm_num)
      (by rw [abs_of_pos (by norm_num)]; norm_num)]
    norm_num
  have hf1 : fl64 (4611686021000000000 : ℚ) = 4611686020999999488 := by
    unfold fl64
    rw [hu1]
    have : (4611686021000000000 : ℚ) / 2 ^ (10 : Int) = ((4503599629882812 : Int) : ℚ) + 1 / 2 := by
      norm_num
    rw [this, roundHalfEven_tie _ (by norm_num)]
    norm_num
  have hf2 : fl64 (4611686020999999488 : ℚ) = 4611686020999999488 := by
    unfold fl64
    rw [hu2]
    have : (4611686020999999488 : ℚ) / 2 ^ (10 : Int) = ((4503599629882812 : Int) : ℚ) := by
      norm_num
    rw [this, roundHalfEven_intCast]
    norm_num
  unfold successDelay
  have hc : ((4611686021000000000 : Int) : ℚ) = 4611686021000000000 := by norm_num
  rw [hc, hf1]
  simp only [sub_self, fl64_zero, zero_mul, zero_add, hf2]
  rw [truncDuration_of_nonneg _ (by norm_num)]
  rw [Int.floor_eq_iff]
  constructor <;> norm_num

end Pdp
